import Mathlib

/-!
Verification of forego: port allocation, concurrency parsing, start-up and
round-robin proxy.

A shallow embedding of `start.go` and `proxy.go`.

* Go `string` values are modelled as lists of Unicode code points.
* Go `int` is the 64-bit two's-complement integer of the usual targets: values
  are `Int`, and every arithmetic operation is reduced with `wrapInt`.
* Go `uint64` values are `Nat`, reduced modulo `2 ^ 64`.
* A function returning `(T, error)` returns a pair whose second component is
  `none` for the `nil` error.
* A pointer `*T` is an `Option T`, `none` being `nil`.
-/

namespace GoForego

/-! ## Strings and the `strings` package -/

/-- Go `string`, as the list of its code points. -/
abbrev GoString := List Char

/-- The predicate `unicode.IsSpace`: the Latin-1 spaces and the code points with
the Unicode White_Space property. -/
def isSpace (c : Char) : Bool :=
  let n := c.toNat
  decide (n = 0x09) || decide (n = 0x0A) || decide (n = 0x0B) || decide (n = 0x0C)
    || decide (n = 0x0D) || decide (n = 0x20) || decide (n = 0x85) || decide (n = 0xA0)
    || decide (n = 0x1680) || (decide (0x2000 ≤ n) && decide (n ≤ 0x200A))
    || decide (n = 0x2028) || decide (n = 0x2029) || decide (n = 0x202F)
    || decide (n = 0x205F) || decide (n = 0x3000)

/-- The function `strings.TrimSpace`: drop leading and trailing white space. -/
def TrimSpace (s : GoString) : GoString :=
  (s.dropWhile isSpace).rdropWhile isSpace

/-- The function `strings.Contains(s, sep)` for a one-character `sep`. -/
def Contains (s : GoString) (sep : Char) : Bool :=
  decide (sep ∈ s)

/-- The function `strings.Split(s, sep)` for a one-character `sep`: the fields
between the occurrences of `sep`, always at least one field. -/
def Split : GoString → Char → List GoString
  | [], _ => [[]]
  | c :: cs, sep =>
    if c = sep then [] :: Split cs sep
    else match Split cs sep with
      | [] => [[c]]
      | p :: ps => (c :: p) :: ps

/-- The function `strings.Join(parts, sep)` for a one-character `sep`. -/
def Join : List GoString → Char → GoString
  | [], _ => []
  | [p], _ => p
  | p :: q :: ps, sep => p ++ sep :: Join (q :: ps) sep

/-! ## The `strconv` package -/

/-- The two sentinel errors of `strconv`. -/
inductive NumError where
  | ErrSyntax
  | ErrRange
  deriving DecidableEq, Repr

/-- Go `error` values produced by the code under study. -/
inductive GoError where
  | New (msg : String)
  | Num (e : NumError)
  deriving DecidableEq, Repr

/-- Value of a decimal digit character, `none` for any other character. -/
def digitVal (c : Char) : Option Nat :=
  if 48 ≤ c.toNat ∧ c.toNat ≤ 57 then some (c.toNat - 48) else none

/-- The digit loop of `strconv.ParseUint(s, 10, bitSize)` with accumulator `n`;
`maxVal = 2 ^ bitSize - 1`. A character that is not a decimal digit is a syntax
error; a value above `maxVal` (or above the `uint64` range) is a range error
that returns `maxVal`. -/
def parseUintLoop (maxVal : Nat) : Nat → GoString → Nat × Option NumError
  | n, [] => (n, none)
  | n, c :: cs =>
    match digitVal c with
    | none => (0, some NumError.ErrSyntax)
    | some d =>
      if n ≥ (2 ^ 64 - 1) / 10 + 1 then (maxVal, some NumError.ErrRange)
      else
        let n1 := n * 10 + d
        if n1 ≥ 2 ^ 64 ∨ n1 > maxVal then (maxVal, some NumError.ErrRange)
        else parseUintLoop maxVal n1 cs

/-- The function `strconv.ParseUint(s, 10, bitSize)`. -/
def ParseUint (s : GoString) (bitSize : Nat) : Nat × Option NumError :=
  match s with
  | [] => (0, some NumError.ErrSyntax)
  | _ => parseUintLoop (2 ^ bitSize - 1) 0 s

/-- The function `strconv.ParseInt(s, 10, bitSize)` for `bitSize > 0`: an
optional sign, then `ParseUint`, then the signed range check. -/
def ParseInt (s : GoString) (bitSize : Nat) : Int × Option NumError :=
  match s with
  | [] => (0, some NumError.ErrSyntax)
  | c :: cs =>
    let neg := decide (c = '-')
    let rest := if c = '+' ∨ c = '-' then cs else s
    match ParseUint rest bitSize with
    | (_, some NumError.ErrSyntax) => (0, some NumError.ErrSyntax)
    | (un, _) =>
      let cutoff := 2 ^ (bitSize - 1)
      if !neg && decide (un ≥ cutoff) then ((cutoff : Int) - 1, some NumError.ErrRange)
      else if neg && decide (un > cutoff) then (-(cutoff : Int), some NumError.ErrRange)
      else (if neg then -(un : Int) else (un : Int), none)

/-- The function `strconv.Atoi`: `ParseInt(s, 10, 0)` at the width of `int`. -/
def Atoi (s : GoString) : Int × Option NumError :=
  ParseInt s 64

/-- Character of a decimal digit `d < 10`. -/
def digitChar (d : Nat) : Char :=
  Char.ofNat (48 + d)

/-- Decimal digits of `n`, most significant first, as in `strconv.FormatUint`;
`fuel` bounds the number of digits beyond the first. -/
def formatBits : Nat → Nat → GoString
  | 0, n => [digitChar (n % 10)]
  | fuel + 1, n =>
    if n < 10 then [digitChar n] else formatBits fuel (n / 10) ++ [digitChar (n % 10)]

/-- The function `strconv.Itoa`: the decimal rendering of an `int`. -/
def Itoa (i : Int) : GoString :=
  if i < 0 then '-' :: formatBits i.natAbs i.natAbs else formatBits i.natAbs i.natAbs

/-- Decimal integer syntax: an optional sign `+` or `-` followed by at least one
decimal digit and nothing else. -/
def isDecimalInteger (s : GoString) : Bool :=
  match s with
  | [] => false
  | c :: cs =>
    if c = '+' ∨ c = '-' then !cs.isEmpty && cs.all Char.isDigit
    else s.all Char.isDigit

/-! ## Go `int` arithmetic and maps -/

/-- Reduction of an integer to the 64-bit two's-complement range of Go `int`. -/
def wrapInt (x : Int) : Int :=
  (x + 2 ^ 63) % 2 ^ 64 - 2 ^ 63

/-- Go `map[string]T`, as an association list; `GoMap.set` keeps keys distinct. -/
abbrev GoMap (β : Type) := List (GoString × β)

/-- Map lookup `v, ok := m[k]`. -/
def GoMap.get? {β : Type} (m : GoMap β) (k : GoString) : Option β :=
  List.lookup k m

/-- Map assignment `m[k] = v`. -/
def GoMap.set {β : Type} : GoMap β → GoString → β → GoMap β
  | [], k, v => [(k, v)]
  | (k', v') :: m, k, v => if k' = k then (k', v) :: m else (k', v') :: GoMap.set m k v

/-- The type `Env`, a `map[string]string`. -/
abbrev Env := GoMap GoString

/-- Map indexing `env[k]` on a string map: the empty string for a missing key. -/
def Env.index (env : Env) (k : GoString) : GoString :=
  (GoMap.get? env k).getD []

/-! ## start.go -/

/-- The constant `defaultPort`. -/
def defaultPort : Int := 5000

/-- The error `errors.New("Concurrency should be in the format: foo=1,bar=2")`. -/
def formatError : GoError :=
  GoError.New "Concurrency should be in the format: foo=1,bar=2"

/-- The loop `for _, part := range parts` of `parseConcurrency`, on the map
built so far. On an error the map built so far is returned with it. -/
def parseConcurrencyLoop : GoMap Int → List GoString → GoMap Int × Option GoError
  | concurrency, [] => (concurrency, none)
  | concurrency, part :: parts =>
    if !Contains part '=' then (concurrency, some formatError)
    else
      let nameValue := Split part '='
      let n := TrimSpace (nameValue.getD 0 [])
      let v := TrimSpace (nameValue.getD 1 [])
      if n = [] ∨ v = [] then (concurrency, some formatError)
      else
        match ParseInt v 16 with
        | (_, some err) => (concurrency, some (GoError.Num err))
        | (numProcs, none) => parseConcurrencyLoop (GoMap.set concurrency n numProcs) parts

/-- The function `parseConcurrency`. -/
def parseConcurrency (value : GoString) : GoMap Int × Option GoError :=
  if TrimSpace value = [] then ([], none)
  else parseConcurrencyLoop [] (Split value ',')

/-- Value of the global `flagPort` when `basePort` runs: `init` sets it to the
`port` entry of `.forego` (`readConfigFile`), or to `defaultPort` without such an
entry, and flag parsing overwrites it when `-p port` is given. -/
def flagPortAfterParse (configPort given : Option Int) : Int :=
  match given with
  | some p => p
  | none => configPort.getD defaultPort

/-- The function `basePort`, with the global `flagPort` and the OS environment
(read by `os.Getenv`) as explicit arguments. -/
def basePort (flagPort : Int) (env : Env) (osEnv : Env) : Int × Option NumError :=
  if flagPort ≠ defaultPort then (flagPort, none)
  else if Env.index env "PORT".toList ≠ [] then Atoi (Env.index env "PORT".toList)
  else if Env.index osEnv "PORT".toList ≠ [] then Atoi (Env.index osEnv "PORT".toList)
  else (defaultPort, none)

/-- The function `processPort`, in Go `int` arithmetic. -/
def processPort (basePort idx procNum : Int) : Int :=
  wrapInt (wrapInt (basePort + wrapInt (idx * 100)) + procNum)

/-- The type `ProcfileEntry`: one declared process group. -/
structure ProcfileEntry where
  Name : GoString
  Command : GoString
  deriving DecidableEq, Repr

/-- A started process together with the values its two goroutines capture from
the `startProcess` call that created it: the arguments `basePort`, `idx`,
`procNum`, `proc`, `env`, the locals `port` and `procName`, and `ps.Env`. Maps
are values here: `env` is the map as it was passed. -/
structure Instance where
  basePort : Int
  idx : Int
  procNum : Int
  proc : ProcfileEntry
  env : Env
  port : Int
  procName : GoString
  psEnv : Env
  deriving DecidableEq, Repr

/-- What the operating system answers to one `startProcess` call: a pipe cannot
be created, `ps.Start()` fails with an error text, or the process starts. -/
inductive SpawnOutcome where
  | pipeError
  | startError (err : GoString)
  | started
  deriving DecidableEq, Repr

/-- Observable effects of `startProcess` and of the monitor goroutine. -/
inductive Action where
  | SystemOutput (msg : GoString)
  | Start (inst : Instance)
  | cancel
  | goPanic
  | Kill (procName : GoString)
  | SendSigTerm (procName : GoString)
  | SendSigKill (procName : GoString)
  deriving DecidableEq, Repr

/-- The instance that `startProcess` builds before spawning: `port`, `procName`
(that is `fmt.Sprint(proc.Name, ".", procNum+1)`) and `ps.Env`, the map `env`
given to `NewProcess` with `ps.Env["PORT"] = strconv.Itoa(port)`. -/
def newInstance (basePort idx procNum : Int) (proc : ProcfileEntry) (env : Env) : Instance :=
  let port := processPort basePort idx procNum
  { basePort := basePort
    idx := idx
    procNum := procNum
    proc := proc
    env := env
    port := port
    procName := proc.Name ++ ".".toList ++ Itoa (wrapInt (procNum + 1))
    psEnv := GoMap.set env "PORT".toList (Itoa port) }

/-- The function `startProcess` up to the creation of its two goroutines, as the
list of its effects for a given answer of the operating system. -/
def startProcess (basePort idx procNum : Int) (proc : ProcfileEntry) (env : Env)
    (os : SpawnOutcome) : List Action :=
  let inst := newInstance basePort idx procNum proc env
  match os with
  | SpawnOutcome.pipeError => [Action.goPanic]
  | SpawnOutcome.startError err =>
    [Action.SystemOutput ("starting ".toList ++ inst.procName ++ " on port ".toList ++ Itoa inst.port),
     Action.cancel,
     Action.SystemOutput ("Failed to start ".toList ++ inst.procName ++ ": ".toList ++ err)]
  | SpawnOutcome.started =>
    [Action.SystemOutput ("starting ".toList ++ inst.procName ++ " on port ".toList ++ Itoa inst.port),
     Action.Start inst]

/-- The case that the outer `select` of the monitor goroutine takes. -/
inductive SelectCase where
  | finished
  | ctxDone
  deriving DecidableEq, Repr

/-- The case that the inner `select` (grace period) takes. -/
inductive GraceCase where
  | timeout
  | finished
  deriving DecidableEq, Repr

/-- The cases of the outer `select` that are ready: `finished` once the process
has exited and its channel is closed, `ctx.Done()` once `cancel` was called. -/
def readyCases (exited done : Bool) : List SelectCase :=
  (if exited then [SelectCase.finished] else []) ++ (if done then [SelectCase.ctxDone] else [])

/-- The shutdown path of the monitor goroutine, the branch `case <-ctx.Done()`. -/
def shutdownPath (osHaveSigTerm : Bool) (inst : Instance) (g : GraceCase) : List Action :=
  if !osHaveSigTerm then
    [Action.SystemOutput ("Killing ".toList ++ inst.procName), Action.Kill inst.procName]
  else
    [Action.SystemOutput ("sending SIGTERM to ".toList ++ inst.procName),
     Action.SendSigTerm inst.procName] ++
    match g with
    | GraceCase.timeout =>
      [Action.SystemOutput "Grace time expired".toList,
       Action.SystemOutput ("Killing ".toList ++ inst.procName),
       Action.SendSigKill inst.procName]
    | GraceCase.finished => []

/-- The monitor goroutine of `startProcess` for instance `inst`, as the effects
of the `select` case `c` it takes; on `finished` with `flagRestart` it runs
`startProcess` again with the captured arguments. -/
def monitor (flagRestart osHaveSigTerm : Bool) (inst : Instance) (c : SelectCase)
    (g : GraceCase) (os : SpawnOutcome) : List Action :=
  match c with
  | SelectCase.finished =>
    if flagRestart then startProcess inst.basePort inst.idx inst.procNum inst.proc inst.env os
    else [Action.cancel]
  | SelectCase.ctxDone => shutdownPath osHaveSigTerm inst g

/-- The supervisor state seen by the monitors: whether `ctx.Done()` is closed,
and every started instance with whether its process has exited. -/
structure SupervisorState where
  done : Bool
  procs : List (Instance × Bool)
  deriving DecidableEq, Repr

/-- Effect of one action on the supervisor state: `cancel` closes `ctx.Done()`,
a successful start adds a running instance. -/
def applyAction (f : SupervisorState) : Action → SupervisorState
  | Action.cancel => { f with done := true }
  | Action.Start inst => { f with procs := f.procs ++ [(inst, false)] }
  | _ => f

/-- Effect of a list of actions on the supervisor state, in order. -/
def applyActions (f : SupervisorState) (as : List Action) : SupervisorState :=
  as.foldl applyAction f

/-- What `runStart` does while it walks the Procfile. -/
inductive StartEvent where
  | startProcess (basePort idx procNum : Int) (proc : ProcfileEntry)
  | SystemOutput (msg : GoString)
  | startProxy (proxyPort : Int) (backendPorts : List Int)
  deriving DecidableEq, Repr

/-- The loop `for name, num := range concurrency` of `runStart`, on the pair
`(defaultConcurrency, all)`. -/
def defaultConcurrencyLoop : GoMap Int → Int × Bool → Int × Bool
  | [], acc => acc
  | (name, num) :: rest, acc =>
    defaultConcurrencyLoop rest (if name = "all".toList then (num, true) else acc)

/-- The loop `for i := 0; i < numProcs; i++` of `runStart`: for each `i` the
port appended to `serverPorts` and the `startProcess` call, when the group is
selected. -/
def instanceLoop (basePort idx : Int) (proc : ProcfileEntry) (singleton : GoString)
    (numProcs : Int) : List (Int × StartEvent) :=
  (List.range numProcs.toNat).filterMap fun (i : Nat) =>
    if singleton = [] ∨ singleton = proc.Name then
      some (processPort basePort idx (i : Int), StartEvent.startProcess basePort idx (i : Int) proc)
    else none

/-- The value of `numProcs` that the body of `for idx, proc := range pf.Entries`
computes for an entry, `none` when it reaches `continue`. -/
def numProcsFor (concurrency : GoMap Int) (defaultConcurrency : Int) (all : Bool)
    (proc : ProcfileEntry) : Option Int :=
  if concurrency.length > 0 then
    match GoMap.get? concurrency proc.Name with
    | some value => some value
    | none => if !all then none else some defaultConcurrency
  else some defaultConcurrency

/-- The body of `for idx, proc := range pf.Entries` for one entry. -/
def entryBody (concurrency : GoMap Int) (defaultConcurrency : Int) (all : Bool)
    (basePort : Int) (singleton : GoString) (flagReverseProxyPort : Int)
    (idx : Int) (proc : ProcfileEntry) : List StartEvent :=
  match numProcsFor concurrency defaultConcurrency all proc with
  | none => []
  | some numProcs =>
    let started := instanceLoop basePort idx proc singleton numProcs
    started.map Prod.snd ++
      if flagReverseProxyPort > 0 ∧ proc.Name = "web".toList then
        [StartEvent.SystemOutput
           ("Starting reverse proxy on port ".toList ++ Itoa flagReverseProxyPort),
         StartEvent.startProxy flagReverseProxyPort (started.map Prod.fst)]
      else []

/-- The loop `for idx, proc := range pf.Entries`, from index `idx` on. -/
def entriesLoop (concurrency : GoMap Int) (defaultConcurrency : Int) (all : Bool)
    (basePort : Int) (singleton : GoString) (flagReverseProxyPort : Int) :
    Nat → List ProcfileEntry → List StartEvent
  | _, [] => []
  | idx, proc :: rest =>
    entryBody concurrency defaultConcurrency all basePort singleton flagReverseProxyPort idx proc
      ++ entriesLoop concurrency defaultConcurrency all basePort singleton flagReverseProxyPort
           (idx + 1) rest

/-- The function `runStart` from the resolution of the default concurrency to
the end of the Procfile loop; `singleton` is `args[0]`, or empty. -/
def runStart (entries : List ProcfileEntry) (concurrency : GoMap Int) (basePort : Int)
    (singleton : GoString) (flagReverseProxyPort : Int) : List StartEvent :=
  let d := defaultConcurrencyLoop concurrency (1, false)
  entriesLoop concurrency d.1 d.2 basePort singleton flagReverseProxyPort 0 entries

/-- The `PORT` values handed to the instances that a list of events starts. -/
def startedPorts : List StartEvent → List GoString
  | [] => []
  | StartEvent.startProcess b i n p :: rest =>
    Env.index (newInstance b i n p []).psEnv "PORT".toList :: startedPorts rest
  | _ :: rest => startedPorts rest

/-- Number of `startProcess` calls among the events for the group at index `idx`. -/
def instancesStarted (events : List StartEvent) (idx : Int) : Nat :=
  (events.filter fun e =>
    match e with
    | StartEvent.startProcess _ i _ _ => decide (i = idx)
    | _ => false).length

/-! ## proxy.go -/

/-- The type `server`; `target` is the `*url.URL`, as the text of the URL or
`none` for `nil`, and the reverse-proxy handle is determined by the target. -/
structure server where
  target : Option GoString
  deriving DecidableEq, Repr

/-- The type `serverPool`: registered `*server` values and the `uint64` cursor. -/
structure serverPool where
  servers : List (Option server)
  current : Nat
  deriving DecidableEq, Repr

/-- Result of a Go call that may end in a run-time panic. -/
inductive GoResult (α : Type) where
  | ok (a : α)
  | goPanic (msg : String)
  deriving DecidableEq, Repr

/-- The method `addServerToPool`. -/
def addServerToPool (sp : serverPool) (s : Option server) : serverPool :=
  { sp with servers := sp.servers ++ [s] }

/-- The call `url.Parse(fmt.Sprintf("http://localhost:%d", port))` with its error
dropped: the URL when the port is written with digits only, `nil` for a
negative port, whose text after the colon is not a valid port. -/
def backendURL (port : Int) : Option GoString :=
  if port < 0 then none else some ("http://localhost:".toList ++ Itoa port)

/-- The registration loop of `startProxy` over the backend ports: each port adds
a non-nil `*server` holding the parsed URL. -/
def startProxy (pool : serverPool) (backendPorts : List Int) : serverPool :=
  backendPorts.foldl
    (fun sp port => addServerToPool sp (some { target := backendURL port }))
    pool

/-- The method `getServer`: `atomic.AddUint64` stores and returns the cursor plus
one modulo `2 ^ 64`; the remainder by `len(sp.servers)` panics for an empty
pool, after the cursor was advanced. -/
def getServer (sp : serverPool) : serverPool × GoResult (Option server) :=
  let n := (sp.current + 1) % 2 ^ 64
  let sp1 := { sp with current := n }
  if sp.servers.length = 0 then (sp1, GoResult.goPanic "runtime error: integer divide by zero")
  else (sp1, GoResult.ok ((sp.servers.getD (n % sp.servers.length) none)))

/-- What the handler `loadBalance` does with a request. -/
inductive Response where
  | ServeHTTP (s : server)
  | Error (body : String) (code : Nat)
  | goPanic (msg : String)
  deriving DecidableEq, Repr

/-- The handler `loadBalance` on the global pool. -/
def loadBalance (pool : serverPool) : serverPool × Response :=
  match getServer pool with
  | (p, GoResult.goPanic msg) => (p, Response.goPanic msg)
  | (p, GoResult.ok (some s)) => (p, Response.ServeHTTP s)
  | (p, GoResult.ok none) => (p, Response.Error "Service not available" 503)

/-- Results of `k` consecutive `getServer` calls, and the pool afterwards. -/
def getServerTimes : Nat → serverPool → List (GoResult (Option server)) × serverPool
  | 0, sp => ([], sp)
  | k + 1, sp =>
    let r := getServer sp
    let rest := getServerTimes k r.1
    (r.2 :: rest.1, rest.2)

/-! ## Well-formed concurrency flags -/

/-- One `name=count` entry of a concurrency flag, with the white space written
before and after its name and before and after its count. -/
structure PaddedEntry where
  name : GoString
  count : Int
  beforeName : GoString
  afterName : GoString
  beforeCount : GoString
  afterCount : GoString
  deriving DecidableEq, Repr

/-- The entry as it is written in the flag, the count in decimal. -/
def PaddedEntry.render (e : PaddedEntry) : GoString :=
  e.beforeName ++ e.name ++ e.afterName ++ '=' :: (e.beforeCount ++ Itoa e.count ++ e.afterCount)

/-- The same entry with no white space around its name and count. -/
def PaddedEntry.tight (e : PaddedEntry) : PaddedEntry :=
  { name := e.name, count := e.count,
    beforeName := [], afterName := [], beforeCount := [], afterCount := [] }

/-- A well-formed entry: the name is non-empty, has no `,` or `=` and neither
starts nor ends with white space, the count is in the signed 16-bit range, and
the padding is white space. -/
def PaddedEntry.WellFormed (e : PaddedEntry) : Prop :=
  e.name ≠ [] ∧ ',' ∉ e.name ∧ '=' ∉ e.name
    ∧ (∀ c ∈ e.name.head?, isSpace c = false) ∧ (∀ c ∈ e.name.getLast?, isSpace c = false)
    ∧ -32768 ≤ e.count ∧ e.count ≤ 32767
    ∧ (∀ c ∈ e.beforeName, isSpace c = true) ∧ (∀ c ∈ e.afterName, isSpace c = true)
    ∧ (∀ c ∈ e.beforeCount, isSpace c = true) ∧ (∀ c ∈ e.afterCount, isSpace c = true)

instance (e : PaddedEntry) : Decidable e.WellFormed := by
  unfold PaddedEntry.WellFormed
  infer_instance

/-- The flag value: the written entries joined by `,`. -/
def renderFlag (es : List PaddedEntry) : GoString :=
  Join (es.map PaddedEntry.render) ','

/-- The map sending each name to its count, built in the order of the entries,
so that the last entry of a repeated name wins. -/
def expectedMap (es : List PaddedEntry) : GoMap Int :=
  es.foldl (fun m e => GoMap.set m e.name e.count) []

/-! ## Properties of Go `int` arithmetic -/

theorem wrapInt_of_inRange (x : Int) (h1 : -2 ^ 63 ≤ x) (h2 : x < 2 ^ 63) : wrapInt x = x := by
  unfold wrapInt
  omega

theorem processPort_eq_wrapInt (basePort idx procNum : Int) :
    processPort basePort idx procNum = wrapInt (basePort + idx * 100 + procNum) := by
  unfold processPort wrapInt
  omega

theorem wrapInt_eq_iff (x y : Int) : wrapInt x = wrapInt y ↔ x % 2 ^ 64 = y % 2 ^ 64 := by
  unfold wrapInt
  omega

theorem emod_eq_iff_dvd_sub (x y : Int) :
    x % 2 ^ 64 = y % 2 ^ 64 ↔ (2 : Int) ^ 64 ∣ x - y := by
  rw [Int.emod_eq_emod_iff_emod_sub_eq_zero]
  exact Int.dvd_iff_emod_eq_zero.symm

/-! ## Properties of the `strconv` model -/

theorem digitChar_toNat (d : Nat) (h : d < 10) : (digitChar d).toNat = 48 + d := by
  interval_cases d <;> rfl

theorem digitVal_digitChar (d : Nat) (h : d < 10) : digitVal (digitChar d) = some d := by
  unfold digitVal
  rw [digitChar_toNat d h]
  have h1 : 48 ≤ 48 + d ∧ 48 + d ≤ 57 := by omega
  simp [h1]

theorem digitChar_ne_minus (d : Nat) (h : d < 10) : digitChar d ≠ '-' := by
  interval_cases d <;> decide

theorem digitChar_ne_plus (d : Nat) (h : d < 10) : digitChar d ≠ '+' := by
  interval_cases d <;> decide

theorem digitChar_not_isSpace (d : Nat) (h : d < 10) : isSpace (digitChar d) = false := by
  interval_cases d <;> decide

theorem formatBits_digits (fuel n : Nat) :
    ∀ c ∈ formatBits fuel n, ∃ d, d < 10 ∧ c = digitChar d := by
  induction fuel generalizing n with
  | zero =>
    intro c hc
    simp only [formatBits, List.mem_singleton] at hc
    exact ⟨n % 10, Nat.mod_lt _ (by decide), hc⟩
  | succ fuel ih =>
    intro c hc
    unfold formatBits at hc
    split at hc
    · rename_i hlt
      simp only [List.mem_singleton] at hc
      exact ⟨n, hlt, hc⟩
    · rw [List.mem_append] at hc
      rcases hc with hc | hc
      · exact ih _ c hc
      · simp only [List.mem_singleton] at hc
        exact ⟨n % 10, Nat.mod_lt _ (by decide), hc⟩

theorem formatBits_ne_nil (fuel n : Nat) : formatBits fuel n ≠ [] := by
  cases fuel with
  | zero => simp [formatBits]
  | succ fuel =>
    unfold formatBits
    split <;> simp

theorem parseUintLoop_append (maxVal : Nat) (xs : GoString) (c : Char) (acc : Nat) :
    parseUintLoop maxVal acc (xs ++ [c]) =
      match parseUintLoop maxVal acc xs with
      | (v, none) => parseUintLoop maxVal v [c]
      | e => e := by
  induction xs generalizing acc with
  | nil => simp [parseUintLoop]
  | cons x xs ih =>
    simp only [List.cons_append, parseUintLoop]
    cases hx : digitVal x with
    | none => simp
    | some d =>
      simp only
      split
      · rfl
      · split
        · rfl
        · exact ih _

theorem parseUintLoop_formatBits (maxVal fuel n : Nat) (hM : maxVal < 2 ^ 64)
    (hn : n ≤ maxVal) (hfuel : n < 10 ^ (fuel + 1)) :
    parseUintLoop maxVal 0 (formatBits fuel n) = (n, none) := by
  induction fuel generalizing n with
  | zero =>
    have h10 : n < 10 := by simpa using hfuel
    have hmod : n % 10 = n := Nat.mod_eq_of_lt h10
    simp only [formatBits, parseUintLoop, hmod, digitVal_digitChar n h10]
    have h1 : ¬ (0 ≥ (2 ^ 64 - 1) / 10 + 1) := by omega
    have h2 : ¬ (0 * 10 + n ≥ 2 ^ 64 ∨ 0 * 10 + n > maxVal) := by omega
    simp only [h1, h2, if_false]
    simp
  | succ fuel ih =>
    unfold formatBits
    by_cases h10 : n < 10
    · simp only [h10, if_true, parseUintLoop, digitVal_digitChar n h10]
      have h1 : ¬ (0 ≥ (2 ^ 64 - 1) / 10 + 1) := by omega
      have h2 : ¬ (0 * 10 + n ≥ 2 ^ 64 ∨ 0 * 10 + n > maxVal) := by omega
      simp only [h1, h2, if_false]
      simp
    · simp only [h10, if_false]
      have hdiv : n / 10 < 10 ^ (fuel + 1) := by
        rw [Nat.div_lt_iff_lt_mul (by decide)]
        calc n < 10 ^ (fuel + 1 + 1) := hfuel
          _ = 10 ^ (fuel + 1) * 10 := by ring
      have hle : n / 10 ≤ maxVal := le_trans (Nat.div_le_self _ _) hn
      rw [parseUintLoop_append, ih (n / 10) hle hdiv]
      simp only [parseUintLoop, digitVal_digitChar (n % 10) (Nat.mod_lt _ (by decide))]
      have h1 : ¬ (n / 10 ≥ (2 ^ 64 - 1) / 10 + 1) := by omega
      have h2 : ¬ (n / 10 * 10 + n % 10 ≥ 2 ^ 64 ∨ n / 10 * 10 + n % 10 > maxVal) := by omega
      simp only [h1, h2, if_false]
      congr 1
      omega

theorem lt_ten_pow_succ (n : Nat) : n < 10 ^ (n + 1) :=
  lt_trans (Nat.lt_pow_self (by decide) n) (Nat.pow_lt_pow_right (by decide) (Nat.lt_succ_self n))

theorem ParseUint_formatBits (n bitSize : Nat) (hb : bitSize ≤ 64) (hn : n < 2 ^ bitSize) :
    ParseUint (formatBits n n) bitSize = (n, none) := by
  have hpos : 0 < 2 ^ bitSize := Nat.two_pow_pos bitSize
  have hle : 2 ^ bitSize ≤ 2 ^ 64 := Nat.pow_le_pow_right (by decide) hb
  have hloop := parseUintLoop_formatBits (2 ^ bitSize - 1) n n (by omega) (by omega)
    (lt_ten_pow_succ n)
  unfold ParseUint
  split
  · rename_i heq
    exact absurd heq (formatBits_ne_nil n n)
  · exact hloop

theorem ParseInt_Itoa_of_bounds (i : Int) (bitSize : Nat) (hb1 : 1 ≤ bitSize)
    (hb2 : bitSize ≤ 64) (hlo : -2 ^ (bitSize - 1) ≤ i) (hhi : i < 2 ^ (bitSize - 1)) :
    ParseInt (Itoa i) bitSize = (i, none) := by
  have hpow : (2 : Nat) ^ bitSize = 2 * 2 ^ (bitSize - 1) := by
    conv_lhs => rw [show bitSize = (bitSize - 1) + 1 by omega]
    rw [pow_succ]; ring
  have hcast : ((2 ^ (bitSize - 1) : Nat) : Int) = 2 ^ (bitSize - 1) := by push_cast; rfl
  generalize hc : (2 : Nat) ^ (bitSize - 1) = cutoff at hpow hcast
  rw [← hcast] at hlo hhi
  by_cases hneg : i < 0
  · have ha : i.natAbs ≤ cutoff := by omega
    have hu := ParseUint_formatBits i.natAbs bitSize hb2 (by omega)
    simp only [Itoa, hneg, if_true, ParseInt, hu, hc]
    have h2 : ¬ (i.natAbs > cutoff) := by omega
    simp [h2]
    rw [hu]
    simp [h2, -Int.natCast_natAbs]
    omega
  · have ha : i.natAbs < cutoff := by omega
    have hu := ParseUint_formatBits i.natAbs bitSize hb2 (by omega)
    obtain ⟨c, cs, hcs⟩ := List.exists_cons_of_ne_nil (formatBits_ne_nil i.natAbs i.natAbs)
    obtain ⟨d, hd, hcd⟩ := formatBits_digits i.natAbs i.natAbs c (by rw [hcs]; simp)
    have hm : c ≠ '-' := hcd ▸ digitChar_ne_minus d hd
    have hp : c ≠ '+' := hcd ▸ digitChar_ne_plus d hd
    rw [hcs] at hu
    simp only [Itoa, hneg, if_false, hcs, ParseInt, hm, hp, or_self, hu, hc]
    have h2 : ¬ (i.natAbs ≥ cutoff) := by omega
    simp [h2, -Int.natCast_natAbs]
    omega

theorem ParseInt_Itoa_16 (i : Int) (hlo : -32768 ≤ i) (hhi : i ≤ 32767) :
    ParseInt (Itoa i) 16 = (i, none) :=
  ParseInt_Itoa_of_bounds i 16 (by decide) (by decide) (by norm_num; omega) (by norm_num; omega)

theorem Atoi_Itoa (i : Int) (hlo : -2 ^ 63 ≤ i) (hhi : i < 2 ^ 63) :
    Atoi (Itoa i) = (i, none) :=
  ParseInt_Itoa_of_bounds i 64 (by decide) (by decide) (by norm_num; omega) (by norm_num; omega)

theorem wrapInt_bounds (x : Int) : -2 ^ 63 ≤ wrapInt x ∧ wrapInt x < 2 ^ 63 := by
  unfold wrapInt
  omega

theorem Itoa_injective_on_int (i j : Int) (hi : -2 ^ 63 ≤ i ∧ i < 2 ^ 63)
    (hj : -2 ^ 63 ≤ j ∧ j < 2 ^ 63) (h : Itoa i = Itoa j) : i = j := by
  have h1 := Atoi_Itoa i hi.1 hi.2
  have h2 := Atoi_Itoa j hj.1 hj.2
  rw [h] at h1
  rw [h1] at h2
  exact (Prod.mk.inj h2).1

/-! ## Properties of the map model -/

theorem GoMap.get?_set_self {β : Type} (m : GoMap β) (k : GoString) (v : β) :
    GoMap.get? (GoMap.set m k v) k = some v := by
  induction m with
  | nil => simp [GoMap.set, GoMap.get?, List.lookup]
  | cons kv m ih =>
    obtain ⟨k', v'⟩ := kv
    unfold GoMap.set
    by_cases h : k' = k
    · simp [h, GoMap.get?, List.lookup]
    · have hne : (k == k') = false := by simpa using fun e => h e.symm
      simp only [h, if_false]
      unfold GoMap.get? at ih ⊢
      simp only [List.lookup, hne]
      exact ih

theorem GoMap.get?_set_other {β : Type} (m : GoMap β) (k k1 : GoString) (v : β) (hk : k1 ≠ k) :
    GoMap.get? (GoMap.set m k v) k1 = GoMap.get? m k1 := by
  induction m with
  | nil =>
    have hne : (k1 == k) = false := by simpa using hk
    simp [GoMap.set, GoMap.get?, List.lookup, hne]
  | cons kv m ih =>
    obtain ⟨k', v'⟩ := kv
    unfold GoMap.set
    by_cases h : k' = k
    · subst h
      have hne : (k1 == k') = false := by simpa using hk
      simp [GoMap.get?, List.lookup, hne]
    · simp only [h, if_false]
      unfold GoMap.get? at ih ⊢
      by_cases h1 : k1 = k'
      · subst h1
        simp [List.lookup]
      · have hne : (k1 == k') = false := by simpa using h1
        simp only [List.lookup, hne]
        exact ih

/-! ## Port allocation -/

/-- C3, the claim as written fails: with base port `2 ^ 63 - 1`, group 0,
number 1 the Go `int` sum overflows, and `processPort` is `-2 ^ 63`, not
`base + idx * 100 + n`. -/
theorem processPort_formula_overflow :
    processPort 9223372036854775807 0 1 = -9223372036854775808
      ∧ processPort 9223372036854775807 0 1 ≠ 9223372036854775807 + 0 * 100 + 1 := by
  decide

/-- C3, amended: `processPort(base, idx, n)` is `base + idx*100 + n` reduced to
the 64-bit range of `int`, hence exactly `base + idx*100 + n` whenever that sum
lies in the range (as for 5000/0/0, 5000/0/1, 5000/1/2, giving 5000, 5001 and
5102); `startProcess` stores the decimal rendering of exactly this value under
`PORT` in the environment of the instance it starts. -/
theorem processPort_formula (basePort idx procNum : Int) (proc : ProcfileEntry) (env : Env) :
    processPort basePort idx procNum = wrapInt (basePort + idx * 100 + procNum)
      ∧ (-2 ^ 63 ≤ basePort + idx * 100 + procNum → basePort + idx * 100 + procNum < 2 ^ 63 →
          processPort basePort idx procNum = basePort + idx * 100 + procNum)
      ∧ processPort 5000 0 0 = 5000 ∧ processPort 5000 0 1 = 5001 ∧ processPort 5000 1 2 = 5102
      ∧ (∃ inst, Action.Start inst ∈
            startProcess basePort idx procNum proc env SpawnOutcome.started)
      ∧ (∀ os inst, Action.Start inst ∈ startProcess basePort idx procNum proc env os →
          inst.port = processPort basePort idx procNum
            ∧ Env.index inst.psEnv "PORT".toList = Itoa (processPort basePort idx procNum)) := by
  refine ⟨processPort_eq_wrapInt _ _ _, ?_, by decide, by decide, by decide, ?_, ?_⟩
  · intro h1 h2
    rw [processPort_eq_wrapInt]
    exact wrapInt_of_inRange _ h1 h2
  · exact ⟨newInstance basePort idx procNum proc env, by simp [startProcess]⟩
  · intro os inst h
    have hinst : inst = newInstance basePort idx procNum proc env := by
      cases os <;> simp [startProcess] at h
      exact h
    subst hinst
    refine ⟨rfl, ?_⟩
    simp [newInstance, Env.index, GoMap.get?_set_self]

/-- C3, amended, at base port 5000, group 1, instance 2 with an empty environment. -/
theorem processPort_formula_witness :
    processPort 5000 1 2 = 5000 + 1 * 100 + 2 :=
  (processPort_formula 5000 1 2 ⟨"web".toList, "run".toList⟩ []).2.1 (by decide) (by decide)

/-- C2, the claim as written fails: group indices 0 and `2 ^ 62` are both
non-negative, instance number 0 is below 100, and both get port 5000, because
`2 ^ 62 * 100` overflows Go `int` to 0. -/
theorem processPort_collision :
    processPort 5000 0 0 = processPort 5000 4611686018427387904 0
      ∧ (0 : Int) ≠ 4611686018427387904
      ∧ (0 : Int) ≤ 4611686018427387904 ∧ (4611686018427387904 : Int) < 2 ^ 63 := by
  decide

theorem processPort_injective (basePort g1 n1 g2 n2 : Int)
    (hg1 : 0 ≤ g1) (hg2 : 0 ≤ g2) (hb1 : 100 * (g1 + 1) ≤ 2 ^ 64) (hb2 : 100 * (g2 + 1) ≤ 2 ^ 64)
    (hn1 : 0 ≤ n1 ∧ n1 < 100) (hn2 : 0 ≤ n2 ∧ n2 < 100)
    (h : processPort basePort g1 n1 = processPort basePort g2 n2) : g1 = g2 ∧ n1 = n2 := by
  rw [processPort_eq_wrapInt, processPort_eq_wrapInt, wrapInt_eq_iff,
    emod_eq_iff_dvd_sub] at h
  obtain ⟨k, hk⟩ := h
  have hlo : -(2 : Int) ^ 64 < basePort + g1 * 100 + n1 - (basePort + g2 * 100 + n2) := by omega
  have hhi : basePort + g1 * 100 + n1 - (basePort + g2 * 100 + n2) < (2 : Int) ^ 64 := by omega
  rw [hk] at hlo hhi
  have hk0 : k = 0 := by omega
  subst hk0
  omega

/-! ## The start-up loop of `runStart` -/

theorem startedPorts_append (a b : List StartEvent) :
    startedPorts (a ++ b) = startedPorts a ++ startedPorts b := by
  induction a with
  | nil => rfl
  | cons e a ih =>
    cases e <;> simp [startedPorts, ih]

theorem newInstance_PORT (b i n : Int) (proc : ProcfileEntry) (env : Env) :
    Env.index (newInstance b i n proc env).psEnv "PORT".toList = Itoa (processPort b i n) := by
  simp [newInstance, Env.index, GoMap.get?_set_self]

theorem defaultConcurrencyLoop_le (m : GoMap Int) (acc : Int × Bool)
    (hm : ∀ kv ∈ m, kv.2 ≤ 100) (hacc : acc.1 ≤ 100) :
    (defaultConcurrencyLoop m acc).1 ≤ 100 := by
  induction m generalizing acc with
  | nil => exact hacc
  | cons kv m ih =>
    obtain ⟨name, num⟩ := kv
    unfold defaultConcurrencyLoop
    apply ih
    · intro kv hkv
      exact hm kv (List.mem_cons_of_mem _ hkv)
    · split
      · exact hm (name, num) (List.mem_cons_self _ _)
      · exact hacc

theorem get?_mem {β : Type} (m : GoMap β) (k : GoString) (v : β) (h : GoMap.get? m k = some v) :
    (k, v) ∈ m := by
  induction m with
  | nil => simp [GoMap.get?, List.lookup] at h
  | cons kv m ih =>
    obtain ⟨k', v'⟩ := kv
    unfold GoMap.get? at h ih
    by_cases hk : k = k'
    · subst hk
      simp [List.lookup] at h
      simp [h]
    · have hne : (k == k') = false := by simpa using hk
      simp only [List.lookup, hne] at h
      exact List.mem_cons_of_mem _ (ih h)

theorem startedPorts_entryBody (concurrency : GoMap Int) (d : Int) (all : Bool)
    (b : Int) (singleton : GoString) (proxyPort : Int) (idx : Int) (proc : ProcfileEntry)
    (hm : ∀ kv ∈ concurrency, kv.2 ≤ 100) (hd : d ≤ 100) :
    ∃ k : Nat, k ≤ 100 ∧
      startedPorts (entryBody concurrency d all b singleton proxyPort idx proc)
        = (List.range k).map fun (i : Nat) => Itoa (processPort b idx (i : Int)) := by
  have key : ∀ numProcs : Int, numProcs ≤ 100 → ∃ k : Nat, k ≤ 100 ∧
      startedPorts ((instanceLoop b idx proc singleton numProcs).map Prod.snd)
        = (List.range k).map fun (i : Nat) => Itoa (processPort b idx (i : Int)) := by
    intro numProcs hnum
    unfold instanceLoop
    by_cases hsel : singleton = [] ∨ singleton = proc.Name
    · refine ⟨numProcs.toNat, by omega, ?_⟩
      simp only [hsel, if_true]
      generalize List.range numProcs.toNat = l
      induction l with
      | nil => rfl
      | cons i l ih =>
        simp only [List.filterMap_cons, List.map_cons, startedPorts, newInstance_PORT]
        rw [ih]
    · refine ⟨0, by omega, ?_⟩
      simp only [hsel, if_false]
      generalize List.range numProcs.toNat = l
      induction l with
      | nil => rfl
      | cons i l ih => simpa using ih
  have proxyNil : ∀ evs : List StartEvent, ∀ ports : List Int,
      startedPorts (evs ++
        if proxyPort > 0 ∧ proc.Name = "web".toList then
          [StartEvent.SystemOutput ("Starting reverse proxy on port ".toList ++ Itoa proxyPort),
           StartEvent.startProxy proxyPort ports]
        else []) = startedPorts evs := by
    intro evs ports
    rw [startedPorts_append]
    split <;> simp [startedPorts]
  have hnum : ∀ numProcs, numProcsFor concurrency d all proc = some numProcs → numProcs ≤ 100 := by
    intro numProcs h
    unfold numProcsFor at h
    by_cases hlen : concurrency.length > 0
    · simp only [hlen, if_true] at h
      cases hget : GoMap.get? concurrency proc.Name with
      | some value =>
        rw [hget] at h
        simp only [Option.some.injEq] at h
        exact h ▸ hm _ (get?_mem _ _ _ hget)
      | none =>
        rw [hget] at h
        cases all <;> simp at h
        exact h ▸ hd
    · simp only [hlen, if_false, Option.some.injEq] at h
      exact h ▸ hd
  unfold entryBody
  cases hres : numProcsFor concurrency d all proc with
  | none => exact ⟨0, by omega, by simp [startedPorts]⟩
  | some numProcs =>
    simp only
    rw [proxyNil]
    exact key numProcs (hnum numProcs hres)

theorem processPort_bounds (b i n : Int) :
    -2 ^ 63 ≤ processPort b i n ∧ processPort b i n < 2 ^ 63 := by
  rw [processPort_eq_wrapInt]
  exact wrapInt_bounds _

theorem portString_injective (b : Int) (i n i1 n1 : Nat)
    (hi : 100 * (i + 1) ≤ 2 ^ 64) (hi1 : 100 * (i1 + 1) ≤ 2 ^ 64) (hn : n < 100) (hn1 : n1 < 100)
    (h : Itoa (processPort b i n) = Itoa (processPort b i1 n1)) : i = i1 ∧ n = n1 := by
  have hp := Itoa_injective_on_int _ _ (processPort_bounds b i n) (processPort_bounds b i1 n1) h
  have := processPort_injective b i n i1 n1 (by omega) (by omega) (by omega) (by omega)
    (by omega) (by omega) hp
  omega

theorem startedPorts_entriesLoop_mem (concurrency : GoMap Int) (d : Int) (all : Bool)
    (b : Int) (singleton : GoString) (proxyPort : Int)
    (hm : ∀ kv ∈ concurrency, kv.2 ≤ 100) (hd : d ≤ 100)
    (idx0 : Nat) (entries : List ProcfileEntry) (p : GoString)
    (hp : p ∈ startedPorts (entriesLoop concurrency d all b singleton proxyPort idx0 entries)) :
    ∃ i n : Nat, idx0 ≤ i ∧ i < idx0 + entries.length ∧ n < 100
      ∧ p = Itoa (processPort b i n) := by
  induction entries generalizing idx0 with
  | nil => simp [entriesLoop, startedPorts] at hp
  | cons proc rest ih =>
    unfold entriesLoop at hp
    rw [startedPorts_append, List.mem_append] at hp
    rcases hp with hp | hp
    · obtain ⟨k, hk, hports⟩ :=
        startedPorts_entryBody concurrency d all b singleton proxyPort idx0 proc hm hd
      rw [hports, List.mem_map] at hp
      obtain ⟨n, hn, hpn⟩ := hp
      rw [List.mem_range] at hn
      exact ⟨idx0, n, le_refl _, by simp, by omega, hpn.symm⟩
    · obtain ⟨i, n, h1, h2, h3, h4⟩ := ih (idx0 + 1) hp
      refine ⟨i, n, by omega, ?_, h3, h4⟩
      simp only [List.length_cons]
      omega

theorem startedPorts_entriesLoop_nodup (concurrency : GoMap Int) (d : Int) (all : Bool)
    (b : Int) (singleton : GoString) (proxyPort : Int)
    (hm : ∀ kv ∈ concurrency, kv.2 ≤ 100) (hd : d ≤ 100)
    (idx0 : Nat) (entries : List ProcfileEntry)
    (hbound : 100 * (idx0 + entries.length) ≤ 2 ^ 64) :
    (startedPorts (entriesLoop concurrency d all b singleton proxyPort idx0 entries)).Nodup := by
  induction entries generalizing idx0 with
  | nil => simp [entriesLoop, startedPorts]
  | cons proc rest ih =>
    simp only [List.length_cons] at hbound
    unfold entriesLoop
    rw [startedPorts_append, List.nodup_append]
    obtain ⟨k, hk, hports⟩ :=
      startedPorts_entryBody concurrency d all b singleton proxyPort idx0 proc hm hd
    refine ⟨?_, ih (idx0 + 1) (by omega), ?_⟩
    · rw [hports]
      apply List.Nodup.map_on _ (List.nodup_range k)
      intro x hx y hy hxy
      rw [List.mem_range] at hx hy
      exact (portString_injective b idx0 x idx0 y (by omega) (by omega) (by omega) (by omega)
        hxy).2
    · intro p hp1 hp2
      rw [hports, List.mem_map] at hp1
      obtain ⟨n, hn, hpn⟩ := hp1
      rw [List.mem_range] at hn
      obtain ⟨i, n1, h1, h2, h3, h4⟩ :=
        startedPorts_entriesLoop_mem concurrency d all b singleton proxyPort hm hd (idx0 + 1)
          rest p hp2
      rw [h4] at hpn
      have := (portString_injective b idx0 n i n1 (by omega) (by omega) (by omega) h3 hpn).1
      omega

/-- C2, amended: for every base port, `processPort` separates any two pairs of a
group index `g` with `0 ≤ g` and `100 * (g + 1) ≤ 2 ^ 64` (no overflow of Go
`int`) and an instance number in `[0, 100)`; hence, for a Procfile of at most
`2 ^ 64 / 100` entries and counts of at most 100 per group, the `PORT` values of
the instances started by `runStart` are pairwise different. -/
theorem processPort_unique (basePort : Int) :
    (∀ g1 n1 g2 n2 : Int, 0 ≤ g1 → 0 ≤ g2 → 100 * (g1 + 1) ≤ 2 ^ 64 → 100 * (g2 + 1) ≤ 2 ^ 64 →
        0 ≤ n1 ∧ n1 < 100 → 0 ≤ n2 ∧ n2 < 100 →
        processPort basePort g1 n1 = processPort basePort g2 n2 → g1 = g2 ∧ n1 = n2)
      ∧ (∀ (entries : List ProcfileEntry) (concurrency : GoMap Int) (singleton : GoString)
          (proxyPort : Int), 100 * entries.length ≤ 2 ^ 64 →
          (∀ kv ∈ concurrency, kv.2 ≤ 100) →
          (startedPorts (runStart entries concurrency basePort singleton proxyPort)).Nodup) := by
  refine ⟨fun g1 n1 g2 n2 h1 h2 h3 h4 h5 h6 h =>
    processPort_injective basePort g1 n1 g2 n2 h1 h2 h3 h4 h5 h6 h, ?_⟩
  intro entries concurrency singleton proxyPort hlen hm
  unfold runStart
  exact startedPorts_entriesLoop_nodup concurrency _ _ basePort singleton proxyPort hm
    (defaultConcurrencyLoop_le concurrency (1, false) hm (by decide)) 0 entries (by omega)

/-- C2, amended, at base port 5000: the ports of groups 0 and 1 differ, and a
Procfile of two groups started with `web=2` gets three different ports. -/
theorem processPort_unique_witness :
    processPort 5000 0 7 ≠ processPort 5000 1 7
      ∧ (startedPorts (runStart [⟨"web".toList, "a".toList⟩, ⟨"worker".toList, "b".toList⟩]
          [("web".toList, 2), ("worker".toList, 1)] 5000 [] 0)).Nodup :=
  ⟨fun h => absurd ((processPort_unique 5000).1 0 7 1 7 (by decide) (by decide) (by decide)
      (by decide) (by decide) (by decide) h).1 (by decide),
   (processPort_unique 5000).2 _ _ _ _ (by decide) (by decide)⟩

/-! ## Instances per group -/

theorem instancesStarted_append (a b : List StartEvent) (idx : Int) :
    instancesStarted (a ++ b) idx = instancesStarted a idx + instancesStarted b idx := by
  simp [instancesStarted, List.filter_append]

theorem instancesStarted_instanceLoop (b idx : Int) (proc : ProcfileEntry) (numProcs i : Int) :
    instancesStarted ((instanceLoop b idx proc [] numProcs).map Prod.snd) i
      = if idx = i then numProcs.toNat else 0 := by
  unfold instanceLoop
  simp only [true_or, if_true]
  have h : ∀ l : List Nat, instancesStarted
      ((l.filterMap fun (n : Nat) =>
        some (processPort b idx (n : Int), StartEvent.startProcess b idx (n : Int) proc)).map
          Prod.snd) i = if idx = i then l.length else 0 := by
    intro l
    induction l with
    | nil => simp [instancesStarted]
    | cons n l ih =>
      simp only [List.filterMap_cons, List.map_cons, List.length_cons]
      unfold instancesStarted at ih ⊢
      by_cases hi : idx = i
      · simp only [hi, if_true] at ih ⊢
        simp [List.filter_cons, ih]
      · simp only [hi, if_false] at ih ⊢
        simp [List.filter_cons, hi, ih]
  rw [h, List.length_range]

theorem instancesStarted_entryBody (concurrency : GoMap Int) (d : Int) (all : Bool)
    (b proxyPort idx : Int) (proc : ProcfileEntry) (i : Int) :
    instancesStarted (entryBody concurrency d all b [] proxyPort idx proc) i
      = if idx = i then
          match numProcsFor concurrency d all proc with
          | none => 0
          | some numProcs => numProcs.toNat
        else 0 := by
  unfold entryBody
  cases numProcsFor concurrency d all proc with
  | none => simp [instancesStarted]
  | some numProcs =>
    simp only
    rw [instancesStarted_append, instancesStarted_instanceLoop]
    have h0 : instancesStarted
        (if proxyPort > 0 ∧ proc.Name = "web".toList then
          [StartEvent.SystemOutput ("Starting reverse proxy on port ".toList ++ Itoa proxyPort),
           StartEvent.startProxy proxyPort
             ((instanceLoop b idx proc [] numProcs).map Prod.fst)]
        else []) i = 0 := by
      split <;> simp [instancesStarted]
    rw [h0]
    simp

theorem instancesStarted_entriesLoop_lt (concurrency : GoMap Int) (d : Int) (all : Bool)
    (b proxyPort : Int) (idx0 : Nat) (entries : List ProcfileEntry) (i : Int)
    (hi : i < idx0) :
    instancesStarted (entriesLoop concurrency d all b [] proxyPort idx0 entries) i = 0 := by
  induction entries generalizing idx0 with
  | nil => simp [entriesLoop, instancesStarted]
  | cons proc rest ih =>
    unfold entriesLoop
    rw [instancesStarted_append, instancesStarted_entryBody, ih (idx0 + 1) (by push_cast; omega)]
    have hne : ¬ ((idx0 : Int) = i) := by omega
    simp [hne]

theorem instancesStarted_entriesLoop (concurrency : GoMap Int) (d : Int) (all : Bool)
    (b proxyPort : Int) (idx0 : Nat) (entries : List ProcfileEntry) (j : Nat)
    (hj : j < entries.length) :
    instancesStarted (entriesLoop concurrency d all b [] proxyPort idx0 entries)
        ((idx0 + j : Nat) : Int)
      = match numProcsFor concurrency d all (entries.get ⟨j, hj⟩) with
        | none => 0
        | some numProcs => numProcs.toNat := by
  induction entries generalizing idx0 j with
  | nil => simp at hj
  | cons proc rest ih =>
    unfold entriesLoop
    rw [instancesStarted_append, instancesStarted_entryBody]
    cases j with
    | zero =>
      rw [instancesStarted_entriesLoop_lt _ _ _ _ _ _ _ _ (by push_cast; omega)]
      simp
    | succ j =>
      have hj1 : j < rest.length := by simpa using hj
      have hne : ¬ ((idx0 : Int) = ((idx0 + (j + 1) : Nat) : Int)) := by push_cast; omega
      have hidx : idx0 + (j + 1) = (idx0 + 1) + j := by omega
      simp only [hne, if_false, Nat.zero_add]
      rw [hidx, ih (idx0 + 1) j hj1]
      rfl

theorem get?_eq_none_of_not_mem {β : Type} (m : GoMap β) (k : GoString)
    (h : k ∉ m.map Prod.fst) : GoMap.get? m k = none := by
  cases hg : GoMap.get? m k with
  | none => rfl
  | some v =>
    exact absurd (List.mem_map_of_mem Prod.fst (get?_mem m k v hg)) h

theorem defaultConcurrencyLoop_eq (m : GoMap Int) (acc : Int × Bool)
    (hkeys : (m.map Prod.fst).Nodup) :
    defaultConcurrencyLoop m acc =
      match GoMap.get? m "all".toList with
      | some v => (v, true)
      | none => acc := by
  induction m generalizing acc with
  | nil => simp [defaultConcurrencyLoop, GoMap.get?, List.lookup]
  | cons kv m ih =>
    obtain ⟨name, num⟩ := kv
    rw [List.map_cons, List.nodup_cons] at hkeys
    unfold defaultConcurrencyLoop
    rw [ih _ hkeys.2]
    by_cases hname : name = "all".toList
    · subst hname
      rw [get?_eq_none_of_not_mem m _ hkeys.1]
      simp [GoMap.get?, List.lookup]
    · have hne : ("all".toList == name) = false := by simpa using fun e => hname e.symm
      simp only [hname, if_false]
      unfold GoMap.get?
      simp only [List.lookup, hne]

/-- C7, the claim as written fails: with the Procfile `foo`, `bar` and the
concurrency map `foo=2` (no `all`), group `bar` has no entry in the map, yet
`runStart` starts 0 instances of it, not 1; and with `foo=-1` it starts 0
instances of `foo`, not the mapped count. -/
theorem runStart_unmapped_group_skipped :
    instancesStarted
        (runStart [⟨"foo".toList, "a".toList⟩, ⟨"bar".toList, "b".toList⟩]
          [("foo".toList, 2)] 5000 [] 0) 1 = 0
      ∧ GoMap.get? [("foo".toList, (2 : Int))] "bar".toList = none
      ∧ GoMap.get? [("foo".toList, (2 : Int))] "all".toList = none
      ∧ instancesStarted
          (runStart [⟨"foo".toList, "a".toList⟩] [("foo".toList, -1)] 5000 [] 0) 0 = 0 := by
  decide

/-- C7, amended: with no singleton selected and a concurrency map of distinct
keys, the number of instances `runStart` starts for the group at index `j` is
the count mapped to the group's name when the map has it, otherwise the count
mapped to `all` when present, otherwise 1 when the map is empty and 0 when the
map is non-empty; a negative count starts no instance, as does the count 0. -/
theorem runStart_instance_count (entries : List ProcfileEntry) (concurrency : GoMap Int)
    (basePort proxyPort : Int) (hkeys : (concurrency.map Prod.fst).Nodup)
    (j : Nat) (hj : j < entries.length) :
    (∀ v, GoMap.get? concurrency (entries.get ⟨j, hj⟩).Name = some v →
        instancesStarted (runStart entries concurrency basePort [] proxyPort) j = v.toNat)
      ∧ (∀ d, GoMap.get? concurrency (entries.get ⟨j, hj⟩).Name = none →
          GoMap.get? concurrency "all".toList = some d →
          instancesStarted (runStart entries concurrency basePort [] proxyPort) j = d.toNat)
      ∧ (GoMap.get? concurrency (entries.get ⟨j, hj⟩).Name = none →
          GoMap.get? concurrency "all".toList = none → concurrency = [] →
          instancesStarted (runStart entries concurrency basePort [] proxyPort) j = 1)
      ∧ (GoMap.get? concurrency (entries.get ⟨j, hj⟩).Name = none →
          GoMap.get? concurrency "all".toList = none → concurrency ≠ [] →
          instancesStarted (runStart entries concurrency basePort [] proxyPort) j = 0) := by
  have hcount := instancesStarted_entriesLoop concurrency
    (defaultConcurrencyLoop concurrency (1, false)).1
    (defaultConcurrencyLoop concurrency (1, false)).2 basePort proxyPort 0 entries j hj
  simp only [Nat.zero_add] at hcount
  have hrun : runStart entries concurrency basePort [] proxyPort
      = entriesLoop concurrency (defaultConcurrencyLoop concurrency (1, false)).1
          (defaultConcurrencyLoop concurrency (1, false)).2 basePort [] proxyPort 0 entries := rfl
  rw [hrun, hcount, defaultConcurrencyLoop_eq concurrency (1, false) hkeys]
  have hlen : concurrency ≠ [] → concurrency.length > 0 := fun h => List.length_pos.mpr h
  generalize entries.get ⟨j, hj⟩ = proc
  unfold numProcsFor
  refine ⟨?_, ?_, ?_, ?_⟩
  · intro v hv
    have hne : concurrency ≠ [] := by
      intro h
      rw [h] at hv
      simp [GoMap.get?, List.lookup] at hv
    rw [if_pos (hlen hne), hv]
  · intro d hname hall
    have hne : concurrency ≠ [] := by
      intro h
      rw [h] at hall
      simp [GoMap.get?, List.lookup] at hall
    rw [if_pos (hlen hne), hname, hall]
    rfl
  · intro hname hall hnil
    subst hnil
    rfl
  · intro hname hall hne
    rw [if_pos (hlen hne), hname, hall]
    rfl

/-- C7, amended, on the Procfile `web`, `worker`, `clock` with `web=2,all=3`:
`web` is mapped, `worker` falls back to `all`. -/
theorem runStart_instance_count_witness :
    instancesStarted
        (runStart [⟨"web".toList, "a".toList⟩, ⟨"worker".toList, "b".toList⟩]
          [("web".toList, 2), ("all".toList, 3)] 5000 [] 0) (0 : Nat) = 2
      ∧ instancesStarted
        (runStart [⟨"web".toList, "a".toList⟩, ⟨"worker".toList, "b".toList⟩]
          [("web".toList, 2), ("all".toList, 3)] 5000 [] 0) (1 : Nat) = 3 :=
  ⟨(runStart_instance_count [⟨"web".toList, "a".toList⟩, ⟨"worker".toList, "b".toList⟩]
      [("web".toList, 2), ("all".toList, 3)] 5000 0 (by decide) 0 (by decide)).1 2 (by decide),
   (runStart_instance_count [⟨"web".toList, "a".toList⟩, ⟨"worker".toList, "b".toList⟩]
      [("web".toList, 2), ("all".toList, 3)] 5000 0 (by decide) 1 (by decide)).2.1 3
      (by decide) (by decide)⟩

/-! ## Rejection of strings that are not decimal integers -/

theorem digitVal_isSome_iff (c : Char) : (digitVal c).isSome = c.isDigit := by
  unfold digitVal Char.isDigit
  have h : c.val.toNat = c.toNat := rfl
  by_cases h1 : 48 ≤ c.toNat ∧ c.toNat ≤ 57
  · have h2 : c.val ≥ 48 := by
      rw [ge_iff_le, UInt32.le_def]; simpa [h] using h1.1
    have h3 : c.val ≤ 57 := by
      rw [UInt32.le_def]; simpa [h] using h1.2
    simp [h1, h2, h3]
  · simp only [h1, if_false, Option.isSome_none]
    symm
    rw [Bool.and_eq_false_iff]
    by_cases h2 : 48 ≤ c.toNat
    · right
      have h3 : ¬ c.toNat ≤ 57 := fun h3 => h1 ⟨h2, h3⟩
      simp only [decide_eq_false_iff_not]
      intro hle
      rw [UInt32.le_def] at hle
      exact h3 (by simpa [h] using hle)
    · left
      simp only [decide_eq_false_iff_not]
      intro hle
      rw [ge_iff_le, UInt32.le_def] at hle
      exact h2 (by simpa [h] using hle)

theorem parseUintLoop_result (maxVal : Nat) (s : GoString) (acc : Nat) :
    ((parseUintLoop maxVal acc s).2 = none ∧ s.all Char.isDigit = true)
      ∨ (parseUintLoop maxVal acc s).2 = some NumError.ErrSyntax
      ∨ parseUintLoop maxVal acc s = (maxVal, some NumError.ErrRange) := by
  induction s generalizing acc with
  | nil => left; simp [parseUintLoop]
  | cons c cs ih =>
    unfold parseUintLoop
    cases hc : digitVal c with
    | none => right; left; rfl
    | some d =>
      simp only
      have hdig : c.isDigit = true := by
        rw [← digitVal_isSome_iff, hc]; rfl
      split
      · right; right; rfl
      · split
        · right; right; rfl
        · rcases ih (acc * 10 + d) with h | h | h
          · left
            exact ⟨h.1, by simp [hdig, h.2]⟩
          · right; left; exact h
          · right; right; exact h

theorem ParseUint_result (s : GoString) (bitSize : Nat) :
    ((ParseUint s bitSize).2 = none ∧ s ≠ [] ∧ s.all Char.isDigit = true)
      ∨ (ParseUint s bitSize).2 = some NumError.ErrSyntax
      ∨ ParseUint s bitSize = (2 ^ bitSize - 1, some NumError.ErrRange) := by
  cases s with
  | nil => right; left; rfl
  | cons c cs =>
    have h : ParseUint (c :: cs) bitSize = parseUintLoop (2 ^ bitSize - 1) 0 (c :: cs) := rfl
    rw [h]
    rcases parseUintLoop_result (2 ^ bitSize - 1) (c :: cs) 0 with h1 | h1 | h1
    · left; exact ⟨h1.1, by simp, h1.2⟩
    · right; left; exact h1
    · right; right; exact h1

theorem ParseInt_isDecimalInteger (s : GoString) (bitSize : Nat) (hb : 2 ≤ bitSize)
    (h : (ParseInt s bitSize).2 = none) : isDecimalInteger s = true := by
  cases s with
  | nil => simp [ParseInt] at h
  | cons c cs =>
    have hpow : (2 : Nat) ^ bitSize = 2 * 2 ^ (bitSize - 1) := by
      conv_lhs => rw [show bitSize = (bitSize - 1) + 1 by omega]
      rw [pow_succ]; ring
    have hpow2 : 2 ≤ (2 : Nat) ^ (bitSize - 1) := by
      calc 2 = 2 ^ 1 := by norm_num
        _ ≤ 2 ^ (bitSize - 1) := Nat.pow_le_pow_right (by decide) (by omega)
    unfold ParseInt at h
    simp only at h
    unfold isDecimalInteger
    generalize hrest : (if c = '+' ∨ c = '-' then cs else c :: cs) = rest at h
    rcases ParseUint_result rest bitSize with hu | hu | hu
    · by_cases hsign : c = '+' ∨ c = '-'
      · simp only [hsign, if_true] at hrest ⊢
        subst hrest
        have hne : cs.isEmpty = false := by
          cases cs with
          | nil => exact absurd rfl hu.2.1
          | cons _ _ => rfl
        simp [hne, hu.2.2]
      · simp only [hsign, if_false] at hrest ⊢
        subst hrest
        exact hu.2.2
    · exfalso
      rcases hp : ParseUint rest bitSize with ⟨un, e⟩
      rw [hp] at hu
      simp only at hu
      subst hu
      simp [hp] at h
    · exfalso
      rw [hu] at h
      simp only at h
      generalize (2 : Nat) ^ (bitSize - 1) = cutoff at h hpow hpow2
      rw [hpow] at h
      by_cases hneg : c = '-'
      · have h1 : cutoff < 2 * cutoff - 1 := by omega
        simp [hneg, h1] at h
      · have h1 : cutoff ≤ 2 * cutoff - 1 := by omega
        simp [hneg, h1] at h

theorem ParseInt_error_of_not_decimal (s : GoString) (bitSize : Nat) (hb : 2 ≤ bitSize)
    (h : isDecimalInteger s = false) : (ParseInt s bitSize).2 ≠ none := by
  intro hn
  rw [ParseInt_isDecimalInteger s bitSize hb hn] at h
  exact absurd h (by decide)

/-! ## Base port resolution -/

/-- C6: with `-p 5000` given explicitly and `PORT=6000` in the loaded
environment, `basePort` returns 6000 and not the port of the flag, although with
`-p 7000` and the same environment it returns 7000: the test
`flagPort != defaultPort` takes a flag equal to the default for no flag. -/
theorem basePort_explicit_default_flag :
    basePort (flagPortAfterParse none (some 5000)) [("PORT".toList, "6000".toList)] []
        = (6000, none)
      ∧ basePort (flagPortAfterParse none (some 5000)) [("PORT".toList, "6000".toList)] []
          ≠ (5000, none)
      ∧ basePort (flagPortAfterParse none (some 7000)) [("PORT".toList, "6000".toList)] []
          = (7000, none) := by
  decide

theorem basePort_of_flagPort (env osEnv : Env) (flagPort : Int) :
    (flagPort ≠ 5000 → basePort flagPort env osEnv = (flagPort, none))
      ∧ (flagPort = 5000 → Env.index env "PORT".toList ≠ [] →
          basePort flagPort env osEnv = Atoi (Env.index env "PORT".toList))
      ∧ (flagPort = 5000 → Env.index env "PORT".toList = [] →
          Env.index osEnv "PORT".toList ≠ [] →
          basePort flagPort env osEnv = Atoi (Env.index osEnv "PORT".toList))
      ∧ (flagPort = 5000 → Env.index env "PORT".toList = [] →
          Env.index osEnv "PORT".toList = [] → basePort flagPort env osEnv = (5000, none)) := by
  have hdef : ¬ ((5000 : Int) ≠ defaultPort) := by decide
  refine ⟨?_, ?_, ?_, ?_⟩
  · intro hp
    have h : flagPort ≠ defaultPort := hp
    simp only [basePort, h, ne_eq, not_false_eq_true, if_true]
  · intro hf h1
    subst hf
    simp only [basePort, hdef, if_false, h1, ne_eq, not_false_eq_true, if_true]
  · intro hf h1 h2
    subst hf
    simp only [basePort, hdef, if_false, h1, h2, ne_eq, not_true_eq_false, not_false_eq_true,
      if_true]
  · intro hf h1 h2
    subst hf
    simp only [basePort, hdef, if_false, h1, h2, ne_eq, not_true_eq_false]
    rfl

/-! ## Round-robin selection -/

theorem getServerTimes_eq (k : Nat) (sp : serverPool) (hN : 0 < sp.servers.length) :
    (getServerTimes k sp).1 = (List.range k).map fun j =>
      GoResult.ok (sp.servers.getD ((sp.current + 1 + j) % 2 ^ 64 % sp.servers.length) none) := by
  induction k generalizing sp with
  | zero => rfl
  | succ k ih =>
    have hne : sp.servers.length ≠ 0 := by omega
    have hstep : getServer sp = ({ sp with current := (sp.current + 1) % 2 ^ 64 },
        GoResult.ok (sp.servers.getD ((sp.current + 1) % 2 ^ 64 % sp.servers.length) none)) := by
      simp [getServer, hne]
    simp only [getServerTimes, hstep]
    have hrest := ih { servers := sp.servers, current := (sp.current + 1) % 2 ^ 64 } hN
    simp only at hrest
    rw [hrest, List.range_succ_eq_map, List.map_cons, List.map_map]
    congr 1
    apply List.map_congr_left
    intro j _
    have h : ((sp.current + 1) % 2 ^ 64 + 1 + j) % 2 ^ 64 = (sp.current + 1 + (j + 1)) % 2 ^ 64 := by
      omega
    simp only [Function.comp, Nat.succ_eq_add_one, h]

theorem map_range_eq_rotate (l : List (Option server)) (c : Nat) :
    ((List.range l.length).map fun j => GoResult.ok (l.getD ((c + j) % l.length) none))
      = (l.rotate (c % l.length)).map GoResult.ok := by
  apply List.ext_getElem
  · simp
  · intro j h1 h2
    have hj : j < l.length := by simpa using h1
    have hmod : (c + j) % l.length < l.length := Nat.mod_lt _ (by omega)
    simp only [List.getElem_map, List.getElem_range, List.getElem_rotate]
    rw [List.getD_eq_getElem _ _ hmod]
    congr 2
    rw [Nat.add_comm j, Nat.mod_add_mod]

/-- C1, the claim as written fails: with three distinct servers and the cursor
at `2 ^ 64 - 2`, three consecutive `getServer` calls return the first server
twice and the third server not at all, because the cursor wraps from
`2 ^ 64 - 1` to 0 and 3 does not divide `2 ^ 64`. -/
theorem getServer_wraparound_repeats :
    (getServerTimes 3
      { servers := [some ⟨some "a".toList⟩, some ⟨some "b".toList⟩, some ⟨some "c".toList⟩],
        current := 18446744073709551614 }).1
      = [GoResult.ok (some ⟨some "a".toList⟩), GoResult.ok (some ⟨some "a".toList⟩),
         GoResult.ok (some ⟨some "b".toList⟩)] := by
  decide

/-- C1, amended: for a pool of `N ≥ 1` registered servers and a `uint64` cursor
`c` such that the cursor does not wrap around during the calls
(`c + N + 1 < 2 ^ 64`) or `N` divides `2 ^ 64`, `N` consecutive `getServer`
calls return the registered servers in cyclic registration order starting at
index `(c + 1) % N`, each exactly once, and the `(N+1)`-th call returns the same
server as the first. -/
theorem getServer_round_robin (sp : serverPool) (hN : 1 ≤ sp.servers.length)
    (hwrap : sp.current + sp.servers.length + 1 < 2 ^ 64 ∨ sp.servers.length ∣ 2 ^ 64) :
    (getServerTimes sp.servers.length sp).1
        = (sp.servers.rotate ((sp.current + 1) % sp.servers.length)).map GoResult.ok
      ∧ List.Perm (getServerTimes sp.servers.length sp).1 (sp.servers.map GoResult.ok)
      ∧ (getServerTimes (sp.servers.length + 1) sp).1
          = (getServerTimes sp.servers.length sp).1 ++ [(getServer sp).2] := by
  have hidx : ∀ j, j ≤ sp.servers.length →
      (sp.current + 1 + j) % 2 ^ 64 % sp.servers.length
        = (sp.current + 1 + j) % sp.servers.length := by
    intro j hj
    rcases hwrap with h | h
    · rw [Nat.mod_eq_of_lt (show sp.current + 1 + j < 2 ^ 64 by omega)]
    · exact Nat.mod_mod_of_dvd _ h
  have hfirst : (getServerTimes sp.servers.length sp).1
      = (sp.servers.rotate ((sp.current + 1) % sp.servers.length)).map GoResult.ok := by
    rw [getServerTimes_eq _ _ (by omega), ← map_range_eq_rotate]
    apply List.map_congr_left
    intro j hj
    rw [List.mem_range] at hj
    rw [hidx j (by omega)]
  refine ⟨hfirst, ?_, ?_⟩
  · rw [hfirst]
    exact (List.rotate_perm _ _).map _
  · rw [getServerTimes_eq _ _ (by omega), getServerTimes_eq _ _ (by omega), List.range_succ,
      List.map_append]
    congr 1
    have hne : sp.servers.length ≠ 0 := by omega
    have h0 := hidx 0 (by omega)
    have hlast := hidx sp.servers.length (le_refl _)
    simp only [Nat.add_zero] at h0
    simp only [List.map_cons, List.map_nil, getServer, hne, if_false, hlast, h0,
      Nat.add_mod_right]

/-- C1, amended, on a pool of three servers with the cursor at 0: the calls
return the second, the third and the first registered server. -/
theorem getServer_round_robin_witness :
    (getServerTimes 3
      { servers := [some ⟨some "a".toList⟩, some ⟨some "b".toList⟩, some ⟨some "c".toList⟩],
        current := 0 }).1
      = ([some ⟨some "a".toList⟩, some ⟨some "b".toList⟩, some ⟨some "c".toList⟩].rotate ((0 + 1) % 3)).map
          GoResult.ok :=
  (getServer_round_robin
    { servers := [some ⟨some "a".toList⟩, some ⟨some "b".toList⟩, some ⟨some "c".toList⟩], current := 0 }
    (by decide) (Or.inl (by decide))).1

/-! ## Empty pool -/

theorem runStart_proxy_without_backends :
    StartEvent.startProxy 8080 [] ∈
        runStart [⟨"web".toList, "run".toList⟩] [("web".toList, 0)] 5000 [] 8080
      ∧ startProxy { servers := [], current := 0 } [] = { servers := [], current := 0 } := by
  decide

/-- C8: for the pool with no registered server (as `startProxy` leaves it when
no `web` instance was started) and any cursor `c`, `getServer` does not return
`nil`: the remainder by `len(sp.servers) = 0` panics, so `loadBalance` never
reaches `http.Error` and answers no 503. -/
theorem getServer_empty_pool_panics (c : Nat) :
    (getServer { servers := [], current := c }).2
        = GoResult.goPanic "runtime error: integer divide by zero"
      ∧ (getServer { servers := [], current := c }).2 ≠ GoResult.ok none
      ∧ (loadBalance { servers := [], current := c }).2
          = Response.goPanic "runtime error: integer divide by zero"
      ∧ (loadBalance { servers := [], current := c }).2
          ≠ Response.Error "Service not available" 503 := by
  simp [getServer, loadBalance]

/-! ## Concurrency-map parsing: rejection -/

theorem parseConcurrencyLoop_ok_parts (parts : List GoString) (acc : GoMap Int)
    (h : (parseConcurrencyLoop acc parts).2 = none) :
    ∀ part ∈ parts, Contains part '=' = true
      ∧ TrimSpace ((Split part '=').getD 0 []) ≠ []
      ∧ TrimSpace ((Split part '=').getD 1 []) ≠ []
      ∧ isDecimalInteger (TrimSpace ((Split part '=').getD 1 [])) = true := by
  induction parts generalizing acc with
  | nil => intro part hp; simp at hp
  | cons p ps ih =>
    unfold parseConcurrencyLoop at h
    by_cases hc : Contains p '=' = true
    · simp only [hc, Bool.not_true, Bool.false_eq_true, if_false] at h
      by_cases hne : TrimSpace ((Split p '=').getD 0 []) = []
          ∨ TrimSpace ((Split p '=').getD 1 []) = []
      · rw [if_pos hne] at h
        exact absurd h (by simp)
      · rw [if_neg hne] at h
        rcases hpi : ParseInt (TrimSpace ((Split p '=').getD 1 [])) 16 with ⟨numProcs, err⟩
        rw [hpi] at h
        cases err with
        | some e => simp at h
        | none =>
          simp only at h
          have hdec := ParseInt_isDecimalInteger _ 16 (by decide) (by rw [hpi])
          intro part hp
          rcases List.mem_cons.mp hp with hp | hp
          · subst hp
            exact ⟨hc, fun e => hne (Or.inl e), fun e => hne (Or.inr e), hdec⟩
          · exact ih _ h part hp
    · simp [hc] at h

/-- C5: for every input that is not blank, if some comma-separated entry
contains no `=`, or has an empty name after trimming (the text before its first
`=`), or an empty count after trimming (the text after its first `=`, up to the
next `=` if there is one), or a count that is not a decimal integer, then
`parseConcurrency` returns an error, whatever the other entries are. -/
theorem parseConcurrency_rejects_malformed (value part : GoString)
    (hvalue : TrimSpace value ≠ []) (hpart : part ∈ Split value ',')
    (hbad : Contains part '=' = false
      ∨ TrimSpace ((Split part '=').getD 0 []) = []
      ∨ TrimSpace ((Split part '=').getD 1 []) = []
      ∨ isDecimalInteger (TrimSpace ((Split part '=').getD 1 [])) = false) :
    (parseConcurrency value).2 ≠ none := by
  intro hnone
  unfold parseConcurrency at hnone
  simp only [hvalue, if_false] at hnone
  obtain ⟨h1, h2, h3, h4⟩ := parseConcurrencyLoop_ok_parts _ _ hnone part hpart
  rcases hbad with h | h | h | h
  · rw [h1] at h; exact absurd h (by decide)
  · exact h2 h
  · exact h3 h
  · rw [h4] at h; exact absurd h (by decide)

/-- C5 on the inputs `foo=x`, `foo=`, `=`, `=1`, `,`, `,,,` and on `a=1,b=z,c=3`,
whose second entry has a count that is not a decimal integer. -/
theorem parseConcurrency_rejects_malformed_witness :
    (parseConcurrency "foo=x".toList).2 ≠ none
      ∧ (parseConcurrency "foo=".toList).2 ≠ none
      ∧ (parseConcurrency "=".toList).2 ≠ none
      ∧ (parseConcurrency "=1".toList).2 ≠ none
      ∧ (parseConcurrency ",".toList).2 ≠ none
      ∧ (parseConcurrency ",,,".toList).2 ≠ none
      ∧ (parseConcurrency "a=1,b=z,c=3".toList).2 ≠ none :=
  ⟨parseConcurrency_rejects_malformed "foo=x".toList "foo=x".toList (by decide) (by decide)
      (Or.inr (Or.inr (Or.inr (by decide)))),
   parseConcurrency_rejects_malformed "foo=".toList "foo=".toList (by decide) (by decide)
      (Or.inr (Or.inr (Or.inl (by decide)))),
   parseConcurrency_rejects_malformed "=".toList "=".toList (by decide) (by decide)
      (Or.inr (Or.inl (by decide))),
   parseConcurrency_rejects_malformed "=1".toList "=1".toList (by decide) (by decide)
      (Or.inr (Or.inl (by decide))),
   parseConcurrency_rejects_malformed ",".toList [] (by decide) (by decide)
      (Or.inl (by decide)),
   parseConcurrency_rejects_malformed ",,,".toList [] (by decide) (by decide)
      (Or.inl (by decide)),
   parseConcurrency_rejects_malformed "a=1,b=z,c=3".toList "b=z".toList (by decide) (by decide)
      (Or.inr (Or.inr (Or.inr (by decide))))⟩

/-- C10: the input `foo=1=2`, whose only entry contains two `=`, is accepted:
`parseConcurrency` returns the map `foo ↦ 1` and no error, the text after the
second `=` being dropped; `foo===2` is rejected only because its second field
is empty. -/
theorem parseConcurrency_accepts_repeated_equals :
    parseConcurrency "foo=1=2".toList = ([("foo".toList, 1)], none)
      ∧ (parseConcurrency "foo===2".toList).2 = some formatError := by
  decide

/-! ## Properties of the `strings` model -/

theorem Split_of_not_mem (a : GoString) (sep : Char) (h : sep ∉ a) : Split a sep = [a] := by
  induction a with
  | nil => rfl
  | cons c cs ih =>
    have hc : c ≠ sep := fun e => h (e ▸ List.mem_cons_self _ _)
    have hcs : sep ∉ cs := fun e => h (List.mem_cons_of_mem _ e)
    simp [Split, hc, ih hcs]

theorem Split_append_sep (a rest : GoString) (sep : Char) (h : sep ∉ a) :
    Split (a ++ sep :: rest) sep = a :: Split rest sep := by
  induction a with
  | nil => simp [Split]
  | cons c cs ih =>
    have hc : c ≠ sep := fun e => h (e ▸ List.mem_cons_self _ _)
    have hcs : sep ∉ cs := fun e => h (List.mem_cons_of_mem _ e)
    simp [Split, hc, ih hcs]

theorem Split_Join (parts : List GoString) (sep : Char) (hne : parts ≠ [])
    (h : ∀ p ∈ parts, sep ∉ p) : Split (Join parts sep) sep = parts := by
  induction parts with
  | nil => exact absurd rfl hne
  | cons p ps ih =>
    cases ps with
    | nil => exact Split_of_not_mem p sep (h p (List.mem_cons_self _ _))
    | cons q qs =>
      have hp := h p (List.mem_cons_self _ _)
      have hrest := ih (by simp) (fun x hx => h x (List.mem_cons_of_mem _ hx))
      simp only [Join]
      rw [Split_append_sep _ _ _ hp, hrest]

theorem dropWhile_append_of_all (p : Char → Bool) (ws l : GoString)
    (h : ∀ c ∈ ws, p c = true) : (ws ++ l).dropWhile p = l.dropWhile p := by
  induction ws with
  | nil => rfl
  | cons c cs ih =>
    have hc := h c (List.mem_cons_self _ _)
    simp only [List.cons_append, List.dropWhile_cons, hc, if_true]
    exact ih (fun x hx => h x (List.mem_cons_of_mem _ hx))

theorem dropWhile_of_head (p : Char → Bool) (l : GoString)
    (h : ∀ c, l.head? = some c → p c = false) : l.dropWhile p = l := by
  cases l with
  | nil => rfl
  | cons c cs =>
    have hc := h c rfl
    simp [List.dropWhile_cons, hc]

theorem dropWhile_eq_nil_of_all (p : Char → Bool) (ws : GoString)
    (h : ∀ c ∈ ws, p c = true) : ws.dropWhile p = [] := by
  have := dropWhile_append_of_all p ws [] h
  simpa using this

theorem TrimSpace_padded (ws1 core ws2 : GoString)
    (h1 : ∀ c ∈ ws1, isSpace c = true) (h2 : ∀ c ∈ ws2, isSpace c = true)
    (hhead : ∀ c, core.head? = some c → isSpace c = false)
    (hlast : ∀ c, core.getLast? = some c → isSpace c = false) :
    TrimSpace (ws1 ++ core ++ ws2) = core := by
  unfold TrimSpace List.rdropWhile
  rw [List.append_assoc, dropWhile_append_of_all _ _ _ h1]
  cases core with
  | nil =>
    rw [List.nil_append, dropWhile_eq_nil_of_all _ _ h2]
    rfl
  | cons c cs =>
    have hc := hhead c rfl
    have hcore : ((c :: cs) ++ ws2).dropWhile isSpace = (c :: cs) ++ ws2 := by
      simp [List.dropWhile_cons, hc]
    rw [hcore, List.reverse_append,
      dropWhile_append_of_all _ _ _ (fun c hc => h2 c (List.mem_reverse.mp hc)),
      dropWhile_of_head _ _ (by
        intro x hx
        rw [List.head?_reverse] at hx
        exact hlast x hx),
      List.reverse_reverse]

theorem TrimSpace_eq_nil_of_all (s : GoString) (h : ∀ c ∈ s, isSpace c = true) :
    TrimSpace s = [] := by
  have := TrimSpace_padded s [] [] h (by simp) (by simp) (by simp)
  simpa using this

theorem mem_dropWhile_of_not (p : Char → Bool) (s : GoString) (c : Char) (hc : c ∈ s)
    (hs : p c = false) : c ∈ s.dropWhile p := by
  induction s with
  | nil => simp at hc
  | cons x xs ih =>
    rw [List.dropWhile_cons]
    split
    · rename_i hx
      rcases List.mem_cons.mp hc with e | e
      · rw [← e, hs] at hx; exact absurd hx (by decide)
      · exact ih e
    · exact hc

theorem TrimSpace_ne_nil_of_mem (s : GoString) (c : Char) (hc : c ∈ s)
    (hs : isSpace c = false) : TrimSpace s ≠ [] := by
  intro h
  unfold TrimSpace at h
  rw [List.rdropWhile_eq_nil_iff] at h
  rw [h c (mem_dropWhile_of_not isSpace s c hc hs)] at hs
  exact absurd hs (by decide)

/-! ## Concurrency-map parsing: well-formed input -/

theorem Itoa_chars (i : Int) : ∀ c ∈ Itoa i, c = '-' ∨ ∃ d, d < 10 ∧ c = digitChar d := by
  intro c hc
  unfold Itoa at hc
  split at hc
  · rcases List.mem_cons.mp hc with h | h
    · exact Or.inl h
    · exact Or.inr (formatBits_digits _ _ c h)
  · exact Or.inr (formatBits_digits _ _ c hc)

theorem Itoa_ne_nil (i : Int) : Itoa i ≠ [] := by
  unfold Itoa
  split
  · simp
  · exact formatBits_ne_nil _ _

theorem Itoa_not_isSpace (i : Int) : ∀ c ∈ Itoa i, isSpace c = false := by
  intro c hc
  rcases Itoa_chars i c hc with h | ⟨d, hd, h⟩
  · subst h; decide
  · subst h; exact digitChar_not_isSpace d hd

theorem Itoa_no_equals (i : Int) : '=' ∉ Itoa i := by
  intro hc
  rcases Itoa_chars i _ hc with h | ⟨d, hd, h⟩
  · exact absurd h (by decide)
  · interval_cases d <;> exact absurd h (by decide)

theorem Itoa_no_comma (i : Int) : ',' ∉ Itoa i := by
  intro hc
  rcases Itoa_chars i _ hc with h | ⟨d, hd, h⟩
  · exact absurd h (by decide)
  · interval_cases d <;> exact absurd h (by decide)

theorem space_ne_of_all (ws : GoString) (x : Char) (hx : isSpace x = false)
    (h : ∀ c ∈ ws, isSpace c = true) : x ∉ ws := by
  intro hmem
  rw [h x hmem] at hx
  exact absurd hx (by decide)

theorem render_no_comma (e : PaddedEntry) (h : e.WellFormed) : ',' ∉ e.render := by
  obtain ⟨_, hcomma, _, _, _, _, _, w1, w2, w3, w4⟩ := h
  have hs : isSpace ',' = false := by decide
  unfold PaddedEntry.render
  simp only [List.mem_append, List.mem_cons, not_or]
  exact ⟨⟨⟨space_ne_of_all _ _ hs w1, hcomma⟩, space_ne_of_all _ _ hs w2⟩, by decide,
    ⟨space_ne_of_all _ _ hs w3, Itoa_no_comma _⟩, space_ne_of_all _ _ hs w4⟩

theorem render_Split (e : PaddedEntry) (h : e.WellFormed) :
    Split e.render '=' = [e.beforeName ++ e.name ++ e.afterName,
      e.beforeCount ++ Itoa e.count ++ e.afterCount] := by
  obtain ⟨_, _, hequals, _, _, _, _, w1, w2, w3, w4⟩ := h
  have hs : isSpace '=' = false := by decide
  have hleft : '=' ∉ e.beforeName ++ e.name ++ e.afterName := by
    simp only [List.mem_append, not_or]
    exact ⟨⟨space_ne_of_all _ _ hs w1, hequals⟩, space_ne_of_all _ _ hs w2⟩
  have hright : '=' ∉ e.beforeCount ++ Itoa e.count ++ e.afterCount := by
    simp only [List.mem_append, not_or]
    exact ⟨⟨space_ne_of_all _ _ hs w3, Itoa_no_equals _⟩, space_ne_of_all _ _ hs w4⟩
  unfold PaddedEntry.render
  rw [Split_append_sep _ _ _ hleft, Split_of_not_mem _ _ hright]

theorem render_Contains (e : PaddedEntry) : Contains e.render '=' = true := by
  simp [Contains, PaddedEntry.render]

theorem parseConcurrencyLoop_render (es : List PaddedEntry) (hwf : ∀ e ∈ es, e.WellFormed)
    (acc : GoMap Int) :
    parseConcurrencyLoop acc (es.map PaddedEntry.render)
      = (es.foldl (fun m e => GoMap.set m e.name e.count) acc, none) := by
  induction es generalizing acc with
  | nil => rfl
  | cons e es ih =>
    have he := hwf e (List.mem_cons_self _ _)
    have hsplit := render_Split e he
    obtain ⟨hne, _, _, hhead, hlast, hlo, hhi, w1, w2, w3, w4⟩ := he
    have hname : TrimSpace (e.beforeName ++ e.name ++ e.afterName) = e.name :=
      TrimSpace_padded _ _ _ w1 w2 (fun c hc => hhead c hc) (fun c hc => hlast c hc)
    have hcount : TrimSpace (e.beforeCount ++ Itoa e.count ++ e.afterCount) = Itoa e.count :=
      TrimSpace_padded _ _ _ w3 w4
        (fun c hc => Itoa_not_isSpace _ c (List.mem_of_mem_head? hc))
        (fun c hc => Itoa_not_isSpace _ c (List.mem_of_mem_getLast? hc))
    have hnot : ¬ (e.name = [] ∨ Itoa e.count = []) := by
      intro h
      rcases h with h | h
      · exact hne h
      · exact Itoa_ne_nil _ h
    simp only [List.map_cons, List.foldl_cons, parseConcurrencyLoop, render_Contains,
      Bool.not_true, Bool.false_eq_true, if_false, hsplit, List.getD_cons_zero,
      List.getD_cons_succ, hname, hcount, hnot, ParseInt_Itoa_16 e.count hlo hhi]
    exact ih (fun x hx => hwf x (List.mem_cons_of_mem _ hx)) _

theorem mem_Join (parts : List GoString) (sep : Char) (p : GoString) (hp : p ∈ parts)
    (c : Char) (hc : c ∈ p) : c ∈ Join parts sep := by
  induction parts with
  | nil => simp at hp
  | cons q qs ih =>
    cases qs with
    | nil =>
      simp only [List.mem_singleton] at hp
      subst hp
      exact hc
    | cons r rs =>
      simp only [Join, List.mem_append, List.mem_cons]
      rcases List.mem_cons.mp hp with h | h
      · subst h
        exact Or.inl hc
      · exact Or.inr (Or.inr (ih h))

theorem renderFlag_not_blank (es : List PaddedEntry) (hne : es ≠ [])
    (hwf : ∀ e ∈ es, e.WellFormed) : TrimSpace (renderFlag es) ≠ [] := by
  cases es with
  | nil => exact absurd rfl hne
  | cons e rest =>
    obtain ⟨hname, _, _, hhead, _⟩ := hwf e (List.mem_cons_self _ _)
    obtain ⟨c, cs, hcs⟩ := List.exists_cons_of_ne_nil hname
    have hsp : isSpace c = false := hhead c (by rw [hcs]; rfl)
    have hmem : c ∈ e.render := by
      unfold PaddedEntry.render
      rw [hcs]
      simp
    exact TrimSpace_ne_nil_of_mem _ c
      (mem_Join _ ',' e.render (by simp [List.mem_map]) c hmem) hsp

theorem foldl_set_get? (es : List PaddedEntry) (acc : GoMap Int) (k : GoString) :
    GoMap.get? (es.foldl (fun m e => GoMap.set m e.name e.count) acc) k
      = match es.reverse.find? (fun e => decide (e.name = k)) with
        | some e => some e.count
        | none => GoMap.get? acc k := by
  induction es generalizing acc with
  | nil => rfl
  | cons e es ih =>
    rw [List.foldl_cons, ih, List.reverse_cons, List.find?_append]
    cases hfind : es.reverse.find? (fun e => decide (e.name = k)) with
    | some e1 => rfl
    | none =>
      by_cases hk : e.name = k
      · subst hk
        simp [List.find?, GoMap.get?_set_self]
      · have hk1 : k ≠ e.name := fun h => hk h.symm
        simp [List.find?, hk, GoMap.get?_set_other _ _ _ _ hk1]

/-- C4: for every list of well-formed entries (non-empty names without `,` or
`=` and without leading or trailing white space, counts in the signed 16-bit
range written in decimal) joined by `,`, with any white space around any name or
count, `parseConcurrency` returns no error and the map sending each name to the
count of its last entry; the result is the same as for the entries written
without white space; a string of white space only, or the empty string, gives
the empty map and no error. -/
theorem parseConcurrency_well_formed (es : List PaddedEntry) (hwf : ∀ e ∈ es, e.WellFormed) :
    parseConcurrency (renderFlag es) = (expectedMap es, none)
      ∧ (∀ k, GoMap.get? (expectedMap es) k
          = (es.reverse.find? (fun e => decide (e.name = k))).map PaddedEntry.count)
      ∧ parseConcurrency (renderFlag es)
          = parseConcurrency (renderFlag (es.map PaddedEntry.tight))
      ∧ (∀ value : GoString, (∀ c ∈ value, isSpace c = true) →
          parseConcurrency value = ([], none)) := by
  have main : ∀ es : List PaddedEntry, (∀ e ∈ es, e.WellFormed) →
      parseConcurrency (renderFlag es) = (expectedMap es, none) := by
    intro es hwf
    unfold parseConcurrency
    by_cases hnil : es = []
    · subst hnil
      rfl
    · have hparts : es.map PaddedEntry.render ≠ [] := by simpa using hnil
      rw [if_neg (renderFlag_not_blank es hnil hwf)]
      unfold renderFlag
      rw [Split_Join _ _ hparts (by
        intro p hp
        obtain ⟨e, he, hpe⟩ := List.mem_map.mp hp
        exact hpe ▸ render_no_comma e (hwf e he))]
      exact parseConcurrencyLoop_render es hwf []
  have htight : ∀ e ∈ es.map PaddedEntry.tight, e.WellFormed := by
    intro e he
    obtain ⟨e0, he0, h⟩ := List.mem_map.mp he
    obtain ⟨h1, h2, h3, h4, h5, h6, h7, _⟩ := hwf e0 he0
    subst h
    exact ⟨h1, h2, h3, h4, h5, h6, h7, by simp [PaddedEntry.tight], by simp [PaddedEntry.tight],
      by simp [PaddedEntry.tight], by simp [PaddedEntry.tight]⟩
  have hmap : expectedMap (es.map PaddedEntry.tight) = expectedMap es := by
    unfold expectedMap
    rw [List.foldl_map]
    rfl
  refine ⟨main es hwf, ?_, ?_, ?_⟩
  · intro k
    unfold expectedMap
    rw [foldl_set_get?]
    cases es.reverse.find? (fun e => decide (e.name = k)) <;> rfl
  · rw [main es hwf, main _ htight, hmap]
  · intro value hvalue
    unfold parseConcurrency
    rw [if_pos (TrimSpace_eq_nil_of_all value hvalue)]

/-- C4 on the flag `foo   =   2, bar = 3,foo=-7`: the result maps `foo` to -7
(the last entry for `foo`) and `bar` to 3. -/
theorem parseConcurrency_well_formed_witness :
    renderFlag
        [⟨"foo".toList, 2, [], "   ".toList, "   ".toList, []⟩,
         ⟨"bar".toList, 3, " ".toList, " ".toList, " ".toList, []⟩,
         ⟨"foo".toList, -7, [], [], [], []⟩] = "foo   =   2, bar = 3,foo=-7".toList
      ∧ expectedMap
        [⟨"foo".toList, 2, [], "   ".toList, "   ".toList, []⟩,
         ⟨"bar".toList, 3, " ".toList, " ".toList, " ".toList, []⟩,
         ⟨"foo".toList, -7, [], [], [], []⟩] = [("foo".toList, -7), ("bar".toList, 3)]
      ∧ parseConcurrency (renderFlag
        [⟨"foo".toList, 2, [], "   ".toList, "   ".toList, []⟩,
         ⟨"bar".toList, 3, " ".toList, " ".toList, " ".toList, []⟩,
         ⟨"foo".toList, -7, [], [], [], []⟩])
        = (expectedMap
        [⟨"foo".toList, 2, [], "   ".toList, "   ".toList, []⟩,
         ⟨"bar".toList, 3, " ".toList, " ".toList, " ".toList, []⟩,
         ⟨"foo".toList, -7, [], [], [], []⟩], none) :=
  ⟨by decide, by decide,
   (parseConcurrency_well_formed
    [⟨"foo".toList, 2, [], "   ".toList, "   ".toList, []⟩,
     ⟨"bar".toList, 3, " ".toList, " ".toList, " ".toList, []⟩,
     ⟨"foo".toList, -7, [], [], [], []⟩] (by decide)).1⟩

/-! ## Restart policy -/

/-- C9, the claim as written fails: with restart enabled, when the process of
an instance exits and `ps.Start()` of the replacement fails, the monitor's step
starts no instance and calls `cancel`. -/
theorem monitor_restart_spawn_failure :
    Action.cancel ∈ monitor true true (newInstance 5000 0 0 ⟨"web".toList, "run".toList⟩ [])
        SelectCase.finished GraceCase.finished (SpawnOutcome.startError "not found".toList)
      ∧ ∀ a ∈ monitor true true (newInstance 5000 0 0 ⟨"web".toList, "run".toList⟩ [])
          SelectCase.finished GraceCase.finished (SpawnOutcome.startError "not found".toList),
          a ≠ Action.Start (newInstance 5000 0 0 ⟨"web".toList, "run".toList⟩ []) := by
  decide

/-- C9, amended: on the event "process exited before cancellation" the monitor
of an instance created by `startProcess(basePort, idx, procNum, proc, env)`
does the following. With restart enabled it runs `startProcess` with the same
base port, group index, instance number and Procfile entry: when the process
spawns, the step starts an instance equal to the exited one (same port, same
name `proc.Name ++ "." ++ Itoa (procNum+1)` in Go `int` arithmetic) and does not
cancel; when `ps.Start()` fails the step starts no instance and cancels. With
restart disabled the step starts no instance and cancels; afterwards, for each
other instance whose process has not exited, the only ready case of its monitor
is `ctx.Done()`, whose branch is the shutdown path. -/
theorem monitor_restart_policy (b i n : Int) (proc : ProcfileEntry) (env : Env)
    (sig : Bool) (g : GraceCase) (f : SupervisorState) :
    (monitor true sig (newInstance b i n proc env) SelectCase.finished g SpawnOutcome.started
        = startProcess b i n proc (newInstance b i n proc env).env SpawnOutcome.started
      ∧ monitor true sig (newInstance b i n proc env) SelectCase.finished g SpawnOutcome.started
        = [Action.SystemOutput ("starting ".toList ++ (newInstance b i n proc env).procName
              ++ " on port ".toList ++ Itoa (newInstance b i n proc env).port),
           Action.Start (newInstance b i n proc env)]
      ∧ (newInstance b i n proc env).port = processPort b i n
      ∧ (newInstance b i n proc env).procName = proc.Name ++ ".".toList ++ Itoa (wrapInt (n + 1))
      ∧ Action.cancel ∉
          monitor true sig (newInstance b i n proc env) SelectCase.finished g SpawnOutcome.started
      ∧ (applyActions f (monitor true sig (newInstance b i n proc env) SelectCase.finished g
          SpawnOutcome.started)).done = f.done)
      ∧ (∀ err, Action.cancel ∈ monitor true sig (newInstance b i n proc env)
            SelectCase.finished g (SpawnOutcome.startError err)
          ∧ ∀ inst, Action.Start inst ∉ monitor true sig (newInstance b i n proc env)
            SelectCase.finished g (SpawnOutcome.startError err))
      ∧ (∀ os, monitor false sig (newInstance b i n proc env) SelectCase.finished g os
            = [Action.cancel]
          ∧ (applyActions f (monitor false sig (newInstance b i n proc env)
              SelectCase.finished g os)).done = true
          ∧ (applyActions f (monitor false sig (newInstance b i n proc env)
              SelectCase.finished g os)).procs = f.procs
          ∧ ∀ other ∈ (applyActions f (monitor false sig (newInstance b i n proc env)
              SelectCase.finished g os)).procs, other.2 = false →
              readyCases other.2 (applyActions f (monitor false sig (newInstance b i n proc env)
                SelectCase.finished g os)).done = [SelectCase.ctxDone]
              ∧ ∀ restart g1 os1, monitor restart sig other.1 SelectCase.ctxDone g1 os1
                  = shutdownPath sig other.1 g1) := by
  have hstarted : monitor true sig (newInstance b i n proc env) SelectCase.finished g
      SpawnOutcome.started
        = [Action.SystemOutput ("starting ".toList ++ (newInstance b i n proc env).procName
              ++ " on port ".toList ++ Itoa (newInstance b i n proc env).port),
           Action.Start (newInstance b i n proc env)] := by
    have hargs : monitor true sig (newInstance b i n proc env) SelectCase.finished g
        SpawnOutcome.started
          = startProcess b i n proc (newInstance b i n proc env).env SpawnOutcome.started := rfl
    rw [hargs]
    rfl
  refine ⟨⟨rfl, hstarted, rfl, rfl, ?_, ?_⟩, ?_, ?_⟩
  · rw [hstarted]
    simp
  · rw [hstarted]
    rfl
  · intro err
    have hfail : monitor true sig (newInstance b i n proc env) SelectCase.finished g
        (SpawnOutcome.startError err)
          = startProcess b i n proc (newInstance b i n proc env).env
              (SpawnOutcome.startError err) := rfl
    rw [hfail]
    simp [startProcess]
  · intro os
    have hoff : monitor false sig (newInstance b i n proc env) SelectCase.finished g os
        = [Action.cancel] := rfl
    rw [hoff]
    refine ⟨rfl, rfl, rfl, ?_⟩
    intro other _ hrun
    refine ⟨?_, fun _ _ _ => rfl⟩
    rw [hrun]
    rfl

/-- C9, amended, with restart disabled and a second instance still running:
after the step the only ready case of that instance's monitor is `ctx.Done()`. -/
theorem monitor_restart_policy_witness :
    (newInstance 5000 0 1 ⟨"web".toList, "run".toList⟩ [], false) ∈
        (applyActions
          { done := false,
            procs := [(newInstance 5000 0 0 ⟨"web".toList, "run".toList⟩ [], true),
                      (newInstance 5000 0 1 ⟨"web".toList, "run".toList⟩ [], false)] }
          (monitor false true (newInstance 5000 0 0 ⟨"web".toList, "run".toList⟩ [])
            SelectCase.finished GraceCase.finished SpawnOutcome.started)).procs
      ∧ readyCases false
          (applyActions
            { done := false,
              procs := [(newInstance 5000 0 0 ⟨"web".toList, "run".toList⟩ [], true),
                        (newInstance 5000 0 1 ⟨"web".toList, "run".toList⟩ [], false)] }
            (monitor false true (newInstance 5000 0 0 ⟨"web".toList, "run".toList⟩ [])
              SelectCase.finished GraceCase.finished SpawnOutcome.started)).done
          = [SelectCase.ctxDone] :=
  ⟨by simp [applyActions, monitor, applyAction],
   (((monitor_restart_policy 5000 0 0 ⟨"web".toList, "run".toList⟩ [] true GraceCase.finished
      { done := false,
        procs := [(newInstance 5000 0 0 ⟨"web".toList, "run".toList⟩ [], true),
                  (newInstance 5000 0 1 ⟨"web".toList, "run".toList⟩ [], false)] }).2.2
      SpawnOutcome.started).2.2.2
      (newInstance 5000 0 1 ⟨"web".toList, "run".toList⟩ [], false)
      (by simp [applyActions, monitor, applyAction]) rfl).1⟩

end GoForego
